import Mathlib

/-!
# Gerstner wave surface: a verification development

Shallow embedding of the numerical core of `wave-gerstner-light.cpp`
(`gerstnerZ`, `normalizeF`, `initWave`, `calcuWave`).

Conventions of the embedding.

* `GLfloat` / `float` / `double` values are idealised: every definition is
  generic in a linearly ordered field `K` with a floor function (so that the
  two wrapping loops of `gerstnerZ` terminate); it runs on `ℚ` and the
  theorems hold on `ℝ`.  Rounding is not modelled: a statement whose truth
  for the `float` code depends on rounding (termination of the wrapping loops
  at very large distances, equality of the results at two different inputs)
  is proved here for exact arithmetic only.
* The `#define`d constants and the library functions `tan`, `cos`, `sqrt`
  are fields of `Config`; `defaultConfig` carries the values of the source.
* The flat global arrays are total maps `Int → K` (`Buf`), the table handed to
  `gerstnerZ` is a list whose reads are bounds-checked.
* A read outside a table and falling off the end of `gerstnerZ` without a
  `return` are the two faults of `Fault`.
-/

namespace GerstnerWave

/-! ## Data model -/

/-- The two ways in which `gerstnerZ` can leave defined behaviour. -/
inductive Fault where
  | outOfBounds
  | noReturn
  deriving DecidableEq, Repr

/-- A flat global array (`pt_strip`, `pt_normal`, `vertex_data`, `normal_data`). -/
abbrev Buf (K : Type) := Int → K

section Defs

variable {K : Type} [LinearOrderedField K]

/-- Table `gerstner_pt_a[22]` of the source: 11 pairs (distance, height). -/
def gerstner_pt_a : List K :=
  [0.0, 0.0, 41.8, 1.4, 77.5, 5.2, 107.6, 10.9,
   132.4, 17.7, 152.3, 25.0, 167.9, 32.4, 179.8, 39.2,
   188.6, 44.8, 195.0, 48.5, 200.0, 50.0]

/-- Table `gerstner_pt_b[22]` of the source: 11 pairs (distance, height). -/
def gerstner_pt_b : List K :=
  [0.0, 0.0, 27.7, 1.4, 52.9, 5.2, 75.9, 10.8,
   97.2, 17.6, 116.8, 25.0, 135.1, 32.4, 152.4, 39.2,
   168.8, 44.8, 184.6, 48.5, 200.0, 50.0]

/-- Bounds-checked read `gerstner[i]`. -/
def readTab (g : List K) (i : Nat) : Except Fault K :=
  match g[i]? with
  | some v => Except.ok v
  | none => Except.error Fault.outOfBounds

/-! ## `gerstnerZ` -/

/-- The loop `while(x_in < 0.0) x_in += 400.0;`, in exact arithmetic: every
addition is exact, so the loop always ends.  (In `float` an addition of 400 to
a value of magnitude beyond `2^33` is absorbed by rounding; that is outside
this model.) -/
def wrapUp [FloorRing K] (x : K) : K :=
  if x < 0 then wrapUp (x + 400) else x
termination_by (Int.toNat ⌈-x / 400⌉)
decreasing_by
  have h1 : -(x + 400) / 400 = -x / 400 - 1 := by ring
  have h2 : (0 : K) < -x / 400 := by
    apply div_pos <;> linarith
  have h3 : 0 < ⌈-x / 400⌉ := Int.ceil_pos.mpr h2
  rw [h1, Int.ceil_sub_one]
  omega

/-- The loop `while(x_in > 400.0) x_in -= 400.0;`, in exact arithmetic: every
subtraction is exact, so the loop always ends.  (In `float` a subtraction of
400 from a value of magnitude beyond `2^33` is absorbed by rounding; that is
outside this model.) -/
def wrapDown [FloorRing K] (x : K) : K :=
  if x > 400 then wrapDown (x - 400) else x
termination_by (Int.toNat ⌈x / 400⌉)
decreasing_by
  have h1 : (x - 400) / 400 = x / 400 - 1 := by ring
  have h2 : (0 : K) < x / 400 := by
    apply div_pos <;> linarith
  have h3 : 0 < ⌈x / 400⌉ := Int.ceil_pos.mpr h2
  rw [h1, Int.ceil_sub_one]
  omega

/-- The folding at the start of `gerstnerZ` (source lines 261-268): scale by
`400 / w_length`, wrap into range, mirror values above 200; in exact
arithmetic (the folded distances of the `float` code carry rounding errors,
which grow with the magnitude of the input). -/
def foldDist [FloorRing K] (w_length x_in : K) : K :=
  let x1 := x_in * 400 / w_length
  let x2 := wrapUp x1
  let x3 := wrapDown x2
  if x3 > 200 then 400 - x3 else x3

/-- The search loop
`while(i<18 && (x_in<gerstner[i] || x_in>=gerstner[i+2])) i+=2;`
started at index `i`; the result is the index at which it stops. -/
def searchLoop (g : List K) (x : K) (i : Nat) : Except Fault Nat :=
  if i < 18 then
    match readTab g i with
    | Except.error e => Except.error e
    | Except.ok gi =>
      if x < gi then searchLoop g x (i + 2)
      else
        match readTab g (i + 2) with
        | Except.error e => Except.error e
        | Except.ok gi2 =>
          if x ≥ gi2 then searchLoop g x (i + 2) else Except.ok i
  else Except.ok i
termination_by 18 - i

/-- The two `return` statements that follow the search loop, for the stopping
index `i`; reaching the end of the function without a `return` is
`Fault.noReturn`. -/
def interpolate (g : List K) (x yScale : K) (i : Nat) : Except Fault K := do
  let gi ← readTab g i
  if x = gi then
    let gi1 ← readTab g (i + 1)
    pure (gi1 * yScale)
  else if x > gi then
    let gi3 ← readTab g (i + 3)
    let gi1 ← readTab g (i + 1)
    let gi2 ← readTab g (i + 2)
    pure (((gi3 - gi1) * (x - gi) / (gi2 - gi) + gi3) * yScale)
  else
    throw Fault.noReturn

/-- The function `gerstnerZ(w_length, w_height, x_in, gerstner)`. -/
def gerstnerZ [FloorRing K] (w_length w_height x_in : K) (g : List K) :
    Except Fault K := do
  let x := foldDist w_length x_in
  let yScale := w_height / 50
  let i ← searchLoop g x 0
  interpolate g x yScale i

/-! ## Loops -/

/-- The loop `for(int i=0; i<n; i++) body`, as a state transformer. -/
def forLoop {σ : Type} : Nat → (Nat → σ → σ) → σ → σ
  | 0, _, s => s
  | n + 1, body, s => body n (forLoop n body s)

/-- The loop `for(int i=0; i<n; i++) body` whose body may fault. -/
def forLoopE {σ : Type} : Nat → (Nat → σ → Except Fault σ) → σ → Except Fault σ
  | 0, _, s => Except.ok s
  | n + 1, body, s =>
    match forLoopE n body s with
    | Except.ok s1 => body n s1
    | Except.error e => Except.error e

/-! ## `normalizeF` -/

/-- The loop `while(t<count && in[t]<0.0000001 && in[t]>-0.0000001) t++;` of
`normalizeF`, started at `t`; the result is the value of `t` at its exit. -/
def scanSmall (mem : Buf K) (inp : Int) (count : Int) (t : Nat) : Nat :=
  if (t : Int) < count ∧ mem (inp + t) < 0.0000001 ∧ mem (inp + t) > -0.0000001 then
    scanSmall mem inp count (t + 1)
  else t
termination_by (count - t).toNat
decreasing_by
  rename_i h
  have := h.1
  omega

/-- The loop `for(t=0; t<count; t++) l += in[t] * in[t];`. -/
def sumSquares (mem : Buf K) (inp : Int) (count : Int) (l : K) : K :=
  forLoop count.toNat (fun t l => l + mem (inp + t) * mem (inp + t)) l

/-- The loop `for(t=0; t<count; t++) in[t] *= 10000.0;`. -/
def scaleIn (mem : Buf K) (inp : Int) (count : Int) : Buf K :=
  forLoop count.toNat (fun t m => Function.update m (inp + t) (m (inp + t) * 10000)) mem

/-- The loop `for(t=0; t<count; t++) out[t] /= l;`. -/
def divOut (mem : Buf K) (out : Int) (count : Int) (l : K) : Buf K :=
  forLoop count.toNat (fun t m => Function.update m (out + t) (m (out + t) / l)) mem

/-- The function `normalizeF(in, out, count)`.  The arrays `in` and `out` are
the regions of one memory `mem` that start at offsets `inp` and `out` (the
only call of the source passes the same pointer for both).  The result is the
memory after the call and the returned code; the `printf` calls are not
modelled. -/
def normalizeF (sqrt : K → K) (mem : Buf K) (inp out : Int) (count : Int) : Buf K × Int :=
  if count ≤ 0 then (mem, 1)
  else
    let t := scanSmall mem inp count 0
    if (t : Int) = count then (mem, 1)
    else
      let l := sumSquares mem inp count 0
      let ml : Buf K × K :=
        if l < 0.0000001 then
          let mem1 := scaleIn mem inp count
          (mem1, sumSquares mem1 inp count 0)
        else (mem, l)
      let l2 := sqrt ml.2
      (divOut ml.1 out count l2, 0)

/-! ## Configuration and state -/

/-- The static configuration: the `#define`d constants, the constant tables
`wave_para` and `gerstner_sort`, and the `math.h` functions the code calls. -/
structure Config (K : Type) where
  START_X : K
  START_Y : K
  START_Z : K
  LENGTH_X : K
  LENGTH_Y : K
  HEIGHT_SCALE : K
  WAVE_COUNT : Nat
  STRIP_COUNT : Nat
  STRIP_LENGTH : Nat
  wave_para : Nat → Nat → K
  gerstner_sort : Nat → Int
  tan : K → K
  cos : K → K
  sqrt : K → K

/-- The global struct `values`. -/
structure Values (K : Type) where
  time : K
  wave_length : Nat → K
  wave_height : Nat → K
  wave_dir : Nat → K
  wave_speed : Nat → K
  wave_start : Nat → K

/-- The mutable globals of the program; `log` collects the grid coordinates
that `calcuWave` prints when `normalizeF` reports a failure. -/
structure State (K : Type) where
  values : Values K
  pt_strip : Buf K
  pt_normal : Buf K
  vertex_data : Buf K
  normal_data : Buf K
  log : List (Int × Int)

/-- The program state before `initWave`: all static arrays are zero. -/
def zeroState : State K where
  values :=
    { time := 0, wave_length := fun _ => 0, wave_height := fun _ => 0,
      wave_dir := fun _ => 0, wave_speed := fun _ => 0, wave_start := fun _ => 0 }
  pt_strip := fun _ => 0
  pt_normal := fun _ => 0
  vertex_data := fun _ => 0
  normal_data := fun _ => 0
  log := []

/-! ## `initWave` and `idleFunc` -/

/-- Body of the loop over `w` in `initWave`. -/
def initValuesBody (cfg : Config K) (w : Nat) (v : Values K) : Values K :=
  { v with
    wave_length := Function.update v.wave_length w (cfg.wave_para w 0)
    wave_height := Function.update v.wave_height w (cfg.wave_para w 1)
    wave_dir := Function.update v.wave_dir w (cfg.wave_para w 2)
    wave_speed := Function.update v.wave_speed w (cfg.wave_para w 3)
    wave_start :=
      Function.update (Function.update v.wave_start (w * 2) (cfg.wave_para w 4))
        (w * 2 + 1) (cfg.wave_para w 5) }

/-- Body of the inner loop of `initWave` that fills `pt_strip`; the state is
the running `index` and the array. -/
def initStripBody (cfg : Config K) (i j : Nat) (st : Int × Buf K) : Int × Buf K :=
  let index := st.1
  let ps := st.2
  let ps1 := Function.update ps index (cfg.START_X + (i : K) * cfg.LENGTH_X)
  let ps2 := Function.update ps1 (index + 1) (cfg.START_Y + (j : K) * cfg.LENGTH_Y)
  (index + 3, ps2)

/-- The function `initWave()`. -/
def initWave (cfg : Config K) (s : State K) : State K :=
  let v0 : Values K := { s.values with time := 0 }
  let v := forLoop cfg.WAVE_COUNT (initValuesBody cfg) v0
  let st := forLoop cfg.STRIP_COUNT
    (fun i st => forLoop cfg.STRIP_LENGTH (fun j st => initStripBody cfg i j st) st)
    ((0 : Int), s.pt_strip)
  { s with values := v, pt_strip := st.2 }

/-- The function `idleFunc()`: one tick of simulation time (the redisplay
request is external). -/
def idleFunc (s : State K) : State K :=
  { s with values := { s.values with time := s.values.time + 0.05 } }

/-! ## `calcuWave` -/

/-- The argument `d + values.wave_speed[w] * values.time` handed to `gerstnerZ`
for wave `w` at a point with lattice coordinates `(px, py)`. -/
def lookupArg (cfg : Config K) (v : Values K) (px py : K) (w : Nat) : K :=
  let d := (px - v.wave_start (w * 2) + (py - v.wave_start (w * 2 + 1)) * cfg.tan (v.wave_dir w))
    * cfg.cos (v.wave_dir w)
  d + v.wave_speed w * v.time

/-- Body of the loop over `w` in `calcuWave`: one wave's contribution added
to `wave`. -/
def waveBody [FloorRing K] (cfg : Config K) (v : Values K) (px py : K) (w : Nat) (wave : K) :
    Except Fault K :=
  if cfg.gerstner_sort w = 1 then
    match gerstnerZ (v.wave_length w) (v.wave_height w) (lookupArg cfg v px py w)
        gerstner_pt_a with
    | Except.ok z => Except.ok (wave + (v.wave_height w - z))
    | Except.error e => Except.error e
  else
    match gerstnerZ (v.wave_length w) (v.wave_height w) (lookupArg cfg v px py w)
        gerstner_pt_b with
    | Except.ok z => Except.ok (wave + (v.wave_height w - z))
    | Except.error e => Except.error e

/-- Body of the inner loop of the first stage of `calcuWave`: the height of
the grid point at the running `index`. -/
def heightBody [FloorRing K] (cfg : Config K) (v : Values K) (st : Int × Buf K) :
    Except Fault (Int × Buf K) :=
  let index := st.1
  let ps := st.2
  match forLoopE cfg.WAVE_COUNT (waveBody cfg v (ps index) (ps (index + 1))) 0 with
  | Except.ok wave =>
    Except.ok (index + 3, Function.update ps (index + 2) (cfg.START_Z + wave * cfg.HEIGHT_SCALE))
  | Except.error e => Except.error e

/-- First stage of `calcuWave` (source lines 313-333): the heights. -/
def heightStage [FloorRing K] (cfg : Config K) (v : Values K) (ps : Buf K) :
    Except Fault (Buf K) :=
  match forLoopE cfg.STRIP_COUNT
      (fun _ st => forLoopE cfg.STRIP_LENGTH (fun _ st => heightBody cfg v st) st)
      ((0 : Int), ps) with
  | Except.ok st => Except.ok st.2
  | Except.error e => Except.error e

/-- One quad of the normal estimator: the cross product of the edge vectors
from the point at `index` to the points at `a` and at `b`, added to
`pt_normal[index .. index+2]`. -/
def addCross (ps pn : Buf K) (index a b : Int) : Buf K :=
  let xa := ps a - ps index
  let ya := ps (a + 1) - ps (index + 1)
  let za := ps (a + 2) - ps (index + 2)
  let xb := ps b - ps index
  let yb := ps (b + 1) - ps (index + 1)
  let zb := ps (b + 2) - ps (index + 2)
  let pn1 := Function.update pn index (pn index + (ya * zb - yb * za))
  let pn2 := Function.update pn1 (index + 1) (pn1 (index + 1) + (xb * za - xa * zb))
  Function.update pn2 (index + 2) (pn2 (index + 2) + (xa * yb - xb * ya))

/-- The four guarded quads of the normal estimator for grid point `(i, j)`
stored at `index`. -/
def accumQuads (cfg : Config K) (ps : Buf K) (i j : Nat) (index : Int) (pn : Buf K) : Buf K :=
  let p0 := index - (cfg.STRIP_LENGTH : Int) * 3
  let p1 := index + 3
  let p2 := index + (cfg.STRIP_LENGTH : Int) * 3
  let p3 := index - 3
  let pnA :=
    if (i : Int) > 0 then
      let pn1 := if (j : Int) > 0 then addCross ps pn index p0 p3 else pn
      if (j : Int) < (cfg.STRIP_LENGTH : Int) - 1 then addCross ps pn1 index p1 p0 else pn1
    else pn
  if (i : Int) < (cfg.STRIP_COUNT : Int) - 1 then
    let pn3 := if (j : Int) > 0 then addCross ps pnA index p3 p2 else pnA
    if (j : Int) < (cfg.STRIP_LENGTH : Int) - 1 then addCross ps pn3 index p2 p1 else pn3
  else pnA

/-- Body of the inner loop of the second stage of `calcuWave`; the state is
the running `index`, `pt_normal` and the printed coordinates. -/
def normalBody (cfg : Config K) (ps : Buf K) (i j : Nat) (st : Int × Buf K × List (Int × Int)) :
    Int × Buf K × List (Int × Int) :=
  let index := st.1
  let pn := accumQuads cfg ps i j index st.2.1
  let r := normalizeF cfg.sqrt pn index index 3
  let log :=
    if r.2 ≠ 0 then
      st.2.2 ++ [(index / 3 / (cfg.STRIP_LENGTH : Int), (index / 3) % (cfg.STRIP_LENGTH : Int))]
    else st.2.2
  (index + 3, r.1, log)

/-- Second stage of `calcuWave` (source lines 335-379): the normals. -/
def normalStage (cfg : Config K) (ps pn : Buf K) (log : List (Int × Int)) :
    Buf K × List (Int × Int) :=
  (forLoop cfg.STRIP_COUNT
    (fun i st => forLoop cfg.STRIP_LENGTH (fun j st => normalBody cfg ps i j st) st)
    ((0 : Int), pn, log)).2

/-- The grid point `pt` that the strip packer copies into slot `l` of strip `c`. -/
def stripPt (STRIP_LENGTH : Nat) (c l : Nat) : Int :=
  if l % 2 = 1 then (c : Int) * STRIP_LENGTH + (l : Int) / 2
  else (c : Int) * STRIP_LENGTH + (l : Int) / 2 + STRIP_LENGTH

/-- Body of the inner loop of the third stage of `calcuWave`; the state is
`(vertex_data, normal_data)`. -/
def packBody (cfg : Config K) (ps pn : Buf K) (c l : Nat) (st : Buf K × Buf K) : Buf K × Buf K :=
  let pt := stripPt cfg.STRIP_LENGTH c l
  let index : Int := (cfg.STRIP_LENGTH : Int) * 2 * c + l
  forLoop 3
    (fun i st =>
      (Function.update st.1 (index * 3 + i) (ps (pt * 3 + i)),
       Function.update st.2 (index * 3 + i) (pn (pt * 3 + i))))
    st

/-- Third stage of `calcuWave` (source lines 381-398): the strip packer. -/
def packStage (cfg : Config K) (ps pn : Buf K) (vd nd : Buf K) : Buf K × Buf K :=
  forLoop (cfg.STRIP_COUNT - 1)
    (fun c st => forLoop (2 * cfg.STRIP_LENGTH) (fun l st => packBody cfg ps pn c l st) st)
    (vd, nd)

/-- The function `calcuWave()`. -/
def calcuWave [FloorRing K] (cfg : Config K) (s : State K) : Except Fault (State K) :=
  match heightStage cfg s.values s.pt_strip with
  | Except.error e => Except.error e
  | Except.ok ps =>
    let nl := normalStage cfg ps s.pt_normal s.log
    let vn := packStage cfg ps nl.1 s.vertex_data s.normal_data
    Except.ok
      { s with pt_strip := ps, pt_normal := nl.1, log := nl.2,
               vertex_data := vn.1, normal_data := vn.2 }

/-! ## Auxiliary notions used by the theorems -/

/-- What the search needs of a profile table: 22 entries, distances that
start at 0, end at 200 and strictly increase. -/
structure TableOK (g : List K) : Prop where
  len : g.length = 22
  first : g.getD 0 0 = 0
  last : g.getD 20 0 = 200
  step : ∀ k, k < 10 → g.getD (2 * k) 0 < g.getD (2 * k + 2) 0

/-- The value `gerstnerZ` returns (0 if it faults, which it never does on the
two tables of the program). -/
def gerstnerZ_val [FloorRing K] (L h x : K) (g : List K) : K :=
  match gerstnerZ L h x g with
  | Except.ok v => v
  | Except.error _ => 0

/-- The table `calcuWave` selects for wave `w`. -/
def waveTable (cfg : Config K) (w : Nat) : List K :=
  if cfg.gerstner_sort w = 1 then gerstner_pt_a else gerstner_pt_b

/-- The sum the loop over the waves accumulates in `wave`. -/
def waveSum [FloorRing K] (cfg : Config K) (v : Values K) (px py : K) : K :=
  ∑ w in Finset.range cfg.WAVE_COUNT,
    (v.wave_height w - gerstnerZ_val (v.wave_length w) (v.wave_height w)
      (lookupArg cfg v px py w) (waveTable cfg w))

/-- The value of the running `index` of `initWave` and `calcuWave` at grid
point `(i, j)`: its three coordinates are stored at `gridIndex`, `+1`, `+2`. -/
def gridIndex (STRIP_LENGTH : Nat) (i j : Nat) : Int :=
  ((i * STRIP_LENGTH + j : Nat) : Int) * 3

/-- The scenario of the specification: a 2×2 grid and one wave of wavelength
1.0, amplitude 0.1, direction 0, speed 0 and origin (0,0), over `ℚ`.  The
polynomials `x` and `1 - x²/2` stand for `tan` and `cos` (they are exact at
the only direction used, 0) and `Rat.sqrt` for `sqrt`. -/
def scenarioConfig : Config ℚ where
  START_X := -4.0
  START_Y := -2.5
  START_Z := 0
  LENGTH_X := 0.1
  LENGTH_Y := 0.1
  HEIGHT_SCALE := 1.6
  WAVE_COUNT := 1
  STRIP_COUNT := 2
  STRIP_LENGTH := 2
  wave_para := fun _ k => [1.0, 0.1, 0.0, 0.0, 0.0, 0.0].getD k 0
  gerstner_sort := fun _ => 0
  tan := fun x => x
  cos := fun x => 1 - x * x / 2
  sqrt := Rat.sqrt

/-- The test `in[t]<0.0000001 && in[t]>-0.0000001` of `normalizeF`. -/
abbrev small (v : K) : Prop := v < 0.0000001 ∧ v > -0.0000001

/-- The buffer `mem` with the three entries at `p`, `p+1`, `p+2` replaced. -/
def set3 (mem : Buf K) (p : Int) (x y z : K) : Buf K :=
  fun q => if q = p then x else if q = p + 1 then y else if q = p + 2 then z else mem q

/-- Closed form of `normalizeF(v, v, 3)` on the vector `(a, b, c)`: the vector
left in place and the returned code. -/
def normalize3 (sqrt : K → K) (a b c : K) : (K × K × K) × Int :=
  if small a ∧ small b ∧ small c then ((a, b, c), 1)
  else if a * a + b * b + c * c < 0.0000001 then
    ((a * 10000 / sqrt (a * 10000 * (a * 10000) + b * 10000 * (b * 10000)
        + c * 10000 * (c * 10000)),
      b * 10000 / sqrt (a * 10000 * (a * 10000) + b * 10000 * (b * 10000)
        + c * 10000 * (c * 10000)),
      c * 10000 / sqrt (a * 10000 * (a * 10000) + b * 10000 * (b * 10000)
        + c * 10000 * (c * 10000))), 0)
  else
    ((a / sqrt (a * a + b * b + c * c), b / sqrt (a * a + b * b + c * c),
      c / sqrt (a * a + b * b + c * c)), 0)

/-- The cross product `a × b` of the edge vectors from the point stored at
`index` to the points stored at `a` and at `b` (the three increments of one
quad of the normal estimator). -/
def cross (ps : Buf K) (index a b : Int) : K × K × K :=
  let xa := ps a - ps index
  let ya := ps (a + 1) - ps (index + 1)
  let za := ps (a + 2) - ps (index + 2)
  let xb := ps b - ps index
  let yb := ps (b + 1) - ps (index + 1)
  let zb := ps (b + 2) - ps (index + 2)
  (ya * zb - yb * za, xb * za - xa * zb, xa * yb - xb * ya)

/-- The sum of the cross products of the quads available at grid point
`(i, j)` stored at `index`, with the guards of `calcuWave`. -/
def quadSum (cfg : Config K) (ps : Buf K) (i j : Nat) (index : Int) : K × K × K :=
  let p0 := index - (cfg.STRIP_LENGTH : Int) * 3
  let p1 := index + 3
  let p2 := index + (cfg.STRIP_LENGTH : Int) * 3
  let p3 := index - 3
  let q1 : K × K × K := if (i : Int) > 0 ∧ (j : Int) > 0 then cross ps index p0 p3 else (0, 0, 0)
  let q2 : K × K × K :=
    if (i : Int) > 0 ∧ (j : Int) < (cfg.STRIP_LENGTH : Int) - 1 then cross ps index p1 p0
    else (0, 0, 0)
  let q3 : K × K × K :=
    if (i : Int) < (cfg.STRIP_COUNT : Int) - 1 ∧ (j : Int) > 0 then cross ps index p3 p2
    else (0, 0, 0)
  let q4 : K × K × K :=
    if (i : Int) < (cfg.STRIP_COUNT : Int) - 1 ∧ (j : Int) < (cfg.STRIP_LENGTH : Int) - 1 then
      cross ps index p2 p1
    else (0, 0, 0)
  (q1.1 + q2.1 + q3.1 + q4.1, q1.2.1 + q2.2.1 + q3.2.1 + q4.2.1,
    q1.2.2 + q2.2.2 + q3.2.2 + q4.2.2)

/-- What one iteration of the normal estimator leaves at grid point `(i, j)`,
as a function of the positions `ps` and of the contents `pn` of `pt_normal`
before the stage: `normalizeF` applied to the old entries plus `quadSum`;
the second component is the code `normalizeF` returns. -/
def pointNormal (cfg : Config K) (ps pn : Buf K) (i j : Nat) : (K × K × K) × Int :=
  normalize3 cfg.sqrt
    (pn (gridIndex cfg.STRIP_LENGTH i j)
      + (quadSum cfg ps i j (gridIndex cfg.STRIP_LENGTH i j)).1)
    (pn (gridIndex cfg.STRIP_LENGTH i j + 1)
      + (quadSum cfg ps i j (gridIndex cfg.STRIP_LENGTH i j)).2.1)
    (pn (gridIndex cfg.STRIP_LENGTH i j + 2)
      + (quadSum cfg ps i j (gridIndex cfg.STRIP_LENGTH i j)).2.2)

/-- A vector that is not zero but whose components are all below the
threshold `0.0000001` of `normalizeF`: `(0.00000001, 0, 0)` stored at offset 0. -/
def tinyVector : Buf K :=
  fun q => if q = 0 then 0.00000001 else 0

/-- A small flat test surface over `ℚ`: a 2×2 grid with unit spacing at the
origin and one wave of amplitude 0 (so every height is `START_Z = 0`).  The
polynomials `x` and `1 - x²/2` stand for `tan` and `cos` (exact at the only
direction used, 0) and `Rat.sqrt` for `sqrt` (exact on squares). -/
def flatConfig : Config ℚ where
  START_X := 0
  START_Y := 0
  START_Z := 0
  LENGTH_X := 1
  LENGTH_Y := 1
  HEIGHT_SCALE := 1.6
  WAVE_COUNT := 1
  STRIP_COUNT := 2
  STRIP_LENGTH := 2
  wave_para := fun _ k => [1.0, 0.0, 0.0, 0.0, 0.0, 0.0].getD k 0
  gerstner_sort := fun _ => 0
  tan := fun x => x
  cos := fun x => 1 - x * x / 2
  sqrt := Rat.sqrt

/-- The state a later frame starts from on the flat test surface: as after
`initWave`, but grid point (0,0) still holds the unit normal
`(24/25, 0, 7/25)` that an earlier frame left in `pt_normal`. -/
def laterFrameState : State ℚ :=
  { initWave flatConfig zeroState with
    pt_normal := set3 (fun _ => 0) 0 (24 / 25) 0 (7 / 25) }

/-- A test surface over `ℚ` whose slope changes between the first two frames: a
2×2 grid with unit spacing starting at `x = -1/2`, and one wave of wavelength
20, amplitude 4155/28, direction 0, speed 5 and origin (0,0) on table B.  The
polynomials `x` and `1 - x²/2` stand for `tan` and `cos` (exact at the only
direction used, 0) and `Rat.sqrt` for `sqrt` (exact on squares). -/
def slopeConfig : Config ℚ where
  START_X := -1 / 2
  START_Y := 0
  START_Z := 0
  LENGTH_X := 1
  LENGTH_Y := 1
  HEIGHT_SCALE := 1
  WAVE_COUNT := 1
  STRIP_COUNT := 2
  STRIP_LENGTH := 2
  wave_para := fun _ k => [20, 4155 / 28, 0.0, 5, 0.0, 0.0].getD k 0
  gerstner_sort := fun _ => 0
  tan := fun x => x
  cos := fun x => 1 - x * x / 2
  sqrt := Rat.sqrt

/-- One frame tick of the main loop: `idleFunc` advances the time, then the
display callback runs `calcuWave`. -/
def frameTick [FloorRing K] (cfg : Config K) (s : State K) : Except Fault (State K) :=
  calcuWave cfg (idleFunc s)

/-- The state after `n` frame ticks. -/
def frames [FloorRing K] (cfg : Config K) : Nat → State K → Except Fault (State K)
  | 0, s => Except.ok s
  | n + 1, s =>
    match frames cfg n s with
    | Except.ok s1 => frameTick cfg s1
    | Except.error e => Except.error e

/-- The body of the inner loop of the strip packer, instrumented: the same
assignments as `packBody`, each appending the index it writes to a trace. -/
def packBodyT (cfg : Config K) (ps pn : Buf K) (c l : Nat)
    (st : (Buf K × Buf K) × List Int) : (Buf K × Buf K) × List Int :=
  let pt := stripPt cfg.STRIP_LENGTH c l
  let index : Int := (cfg.STRIP_LENGTH : Int) * 2 * c + l
  forLoop 3
    (fun i st =>
      ((Function.update st.1.1 (index * 3 + i) (ps (pt * 3 + i)),
        Function.update st.1.2 (index * 3 + i) (pn (pt * 3 + i))),
       st.2 ++ [index * 3 + i]))
    st

/-- The strip packer, instrumented with the trace of the indices it writes (in
`vertex_data` and in `normal_data` alike). -/
def packStageT (cfg : Config K) (ps pn : Buf K) (vd nd : Buf K) : (Buf K × Buf K) × List Int :=
  forLoop (cfg.STRIP_COUNT - 1)
    (fun c st => forLoop (2 * cfg.STRIP_LENGTH) (fun l st => packBodyT cfg ps pn c l st) st)
    ((vd, nd), [])

end Defs

/-! ## Lemmas on the folding of `gerstnerZ` -/

section FoldLemmas

variable {K : Type} [LinearOrderedField K]

theorem wrapUp_of_neg [FloorRing K] {x : K} (h : x < 0) : wrapUp x = wrapUp (x + 400) := by
  rw [wrapUp, if_pos h]

theorem wrapUp_of_nonneg [FloorRing K] {x : K} (h : 0 ≤ x) : wrapUp x = x := by
  rw [wrapUp, if_neg (not_lt.mpr h)]

theorem wrapDown_of_gt [FloorRing K] {x : K} (h : 400 < x) : wrapDown x = wrapDown (x - 400) := by
  rw [wrapDown, if_pos h]

theorem wrapDown_of_le [FloorRing K] {x : K} (h : x ≤ 400) : wrapDown x = x := by
  rw [wrapDown, if_neg (not_lt.mpr h)]

/-- What the first wrapping loop establishes. -/
theorem wrapUp_spec [FloorRing K] (x : K) :
    0 ≤ wrapUp x ∧ (x < 0 → wrapUp x < 400) ∧ ∃ n : ℤ, wrapUp x = x + 400 * n := by
  induction x using wrapUp.induct with
  | case1 x h ih =>
    obtain ⟨h0, h1, n, hn⟩ := ih
    rw [wrapUp_of_neg h]
    refine ⟨h0, fun _ => ?_, n + 1, ?_⟩
    · rcases lt_or_le (x + 400) 0 with h2 | h2
      · exact h1 h2
      · rw [wrapUp_of_nonneg h2]; linarith
    · rw [hn]; push_cast; ring
  | case2 x h =>
    have h' : 0 ≤ x := not_lt.mp h
    rw [wrapUp_of_nonneg h']
    exact ⟨h', fun hx => absurd hx h, 0, by simp⟩

/-- What the second wrapping loop establishes on a non-negative input. -/
theorem wrapDown_spec [FloorRing K] (x : K) (hx : 0 ≤ x) :
    0 ≤ wrapDown x ∧ wrapDown x ≤ 400 ∧ ∃ n : ℤ, wrapDown x = x + 400 * n := by
  induction x using wrapDown.induct with
  | case1 x h ih =>
    have h' : 400 < x := h
    obtain ⟨h0, h1, n, hn⟩ := ih (by linarith)
    rw [wrapDown_of_gt h']
    refine ⟨h0, h1, n - 1, ?_⟩
    rw [hn]; push_cast; ring
  | case2 x h =>
    have h' : x ≤ 400 := not_lt.mp h
    rw [wrapDown_of_le h']
    exact ⟨hx, h', 0, by simp⟩

/-- The folded distance lies in `[0, 200]`. -/
theorem foldDist_range [FloorRing K] (L x : K) : 0 ≤ foldDist L x ∧ foldDist L x ≤ 200 := by
  obtain ⟨h0, -, -⟩ := wrapUp_spec (x * 400 / L)
  obtain ⟨h1, h2, -⟩ := wrapDown_spec (wrapUp (x * 400 / L)) h0
  unfold foldDist
  simp only
  split_ifs with h
  · constructor <;> linarith
  · exact ⟨h1, not_lt.mp h⟩

/-- The folded distance is congruent to plus or minus the scaled distance
modulo 400. -/
theorem foldDist_cong [FloorRing K] (L x : K) :
    ∃ n : ℤ, foldDist L x = x * 400 / L + 400 * n ∨ foldDist L x = -(x * 400 / L) + 400 * n := by
  obtain ⟨h0, -, n1, hn1⟩ := wrapUp_spec (x * 400 / L)
  obtain ⟨-, -, n2, hn2⟩ := wrapDown_spec (wrapUp (x * 400 / L)) h0
  unfold foldDist
  simp only
  split_ifs with h
  · refine ⟨1 - n1 - n2, Or.inr ?_⟩
    rw [hn2, hn1]; push_cast; ring
  · refine ⟨n1 + n2, Or.inl ?_⟩
    rw [hn2, hn1]; push_cast; ring

/-- Two points of `[0, 200]` congruent up to sign modulo 400 are equal. -/
theorem fold_unique {a b : K} (ha0 : 0 ≤ a) (ha : a ≤ 200) (hb0 : 0 ≤ b) (hb : b ≤ 200)
    (h : ∃ n : ℤ, a = b + 400 * n ∨ a = -b + 400 * n) : a = b := by
  obtain ⟨n, h | h⟩ := h
  · have h1 : (n : K) < 1 := by nlinarith
    have h2 : (-1 : K) < n := by nlinarith
    have h3 : n < 1 := by exact_mod_cast h1
    have h4 : -1 < n := by exact_mod_cast h2
    have h5 : n = 0 := by omega
    subst h5
    simpa using h
  · have h1 : (n : K) < 2 := by nlinarith
    have h2 : (-1 : K) < n := by nlinarith
    have h3 : n < 2 := by exact_mod_cast h1
    have h4 : -1 < n := by exact_mod_cast h2
    have h5 : n = 0 ∨ n = 1 := by omega
    rcases h5 with h5 | h5
    · subst h5
      simp at h
      linarith
    · subst h5
      simp at h
      linarith

/-- The folded distance only depends on the scaled distance up to sign and
multiples of 400. -/
theorem foldDist_eq_of_cong [FloorRing K] (L1 x1 L2 x2 : K)
    (h : ∃ n : ℤ, x1 * 400 / L1 = x2 * 400 / L2 + 400 * n ∨
        x1 * 400 / L1 = -(x2 * 400 / L2) + 400 * n) :
    foldDist L1 x1 = foldDist L2 x2 := by
  obtain ⟨a0, a1⟩ := foldDist_range L1 x1
  obtain ⟨b0, b1⟩ := foldDist_range L2 x2
  obtain ⟨n1, h1⟩ := foldDist_cong L1 x1
  obtain ⟨n2, h2⟩ := foldDist_cong L2 x2
  obtain ⟨n, h⟩ := h
  apply fold_unique a0 a1 b0 b1
  rcases h with h | h <;> rcases h1 with h1 | h1 <;> rcases h2 with h2 | h2
  · exact ⟨n1 + n - n2, Or.inl (by rw [h1, h2, h]; push_cast; ring)⟩
  · exact ⟨n1 + n + n2, Or.inr (by rw [h1, h2, h]; push_cast; ring)⟩
  · exact ⟨n1 - n + n2, Or.inr (by rw [h1, h2, h]; push_cast; ring)⟩
  · exact ⟨n1 - n - n2, Or.inl (by rw [h1, h2, h]; push_cast; ring)⟩
  · exact ⟨n1 + n + n2, Or.inr (by rw [h1, h2, h]; push_cast; ring)⟩
  · exact ⟨n1 + n - n2, Or.inl (by rw [h1, h2, h]; push_cast; ring)⟩
  · exact ⟨n1 - n - n2, Or.inl (by rw [h1, h2, h]; push_cast; ring)⟩
  · exact ⟨n1 - n + n2, Or.inr (by rw [h1, h2, h]; push_cast; ring)⟩

/-- On `[0, 200]` with wavelength 400 the folding is the identity. -/
theorem foldDist_id [FloorRing K] {x : K} (h0 : 0 ≤ x) (h1 : x ≤ 200) : foldDist 400 x = x := by
  have e : x * 400 / 400 = x := by field_simp
  unfold foldDist
  simp only [e]
  rw [wrapUp_of_nonneg h0, wrapDown_of_le (by linarith), if_neg (not_lt.mpr h1)]

end FoldLemmas

/-! ## Lemmas on the table search of `gerstnerZ` -/

section TableLemmas

variable {K : Type} [LinearOrderedField K]

theorem tableOK_a : TableOK (gerstner_pt_a : List K) := by
  refine ⟨rfl, by norm_num [gerstner_pt_a], by norm_num [gerstner_pt_a], ?_⟩
  intro k hk
  interval_cases k <;> norm_num [gerstner_pt_a]

theorem tableOK_b : TableOK (gerstner_pt_b : List K) := by
  refine ⟨rfl, by norm_num [gerstner_pt_b], by norm_num [gerstner_pt_b], ?_⟩
  intro k hk
  interval_cases k <;> norm_num [gerstner_pt_b]

theorem readTab_eq (g : List K) (i : Nat) (h : i < g.length) :
    readTab g i = Except.ok (g.getD i 0) := by
  simp [readTab, List.getD, List.getElem?_eq_getElem h]

theorem searchLoop_stop (g : List K) (x : K) (i : Nat) (h : ¬ i < 18) :
    searchLoop g x i = Except.ok i := by
  rw [searchLoop, if_neg h]

theorem searchLoop_step (g : List K) (x : K) (i : Nat) (h : i < 18) (hlen : g.length = 22) :
    searchLoop g x i =
      if x < g.getD i 0 ∨ x ≥ g.getD (i + 2) 0 then searchLoop g x (i + 2) else Except.ok i := by
  rw [searchLoop, if_pos h, readTab_eq g i (by omega), readTab_eq g (i + 2) (by omega)]
  simp only
  by_cases h1 : x < g.getD i 0
  · rw [if_pos h1, if_pos (Or.inl h1)]
  · by_cases h2 : x ≥ g.getD (i + 2) 0
    · rw [if_neg h1, if_pos h2, if_pos (Or.inr h2)]
    · rw [if_neg h1, if_neg h2, if_neg (not_or.mpr ⟨h1, h2⟩)]

/-- The distances of a good table increase along the even indices. -/
theorem TableOK.mono {g : List K} (hg : TableOK g) :
    ∀ b a, a ≤ b → b ≤ 10 → g.getD (2 * a) 0 ≤ g.getD (2 * b) 0 := by
  intro b
  induction b with
  | zero =>
    intro a ha _
    have : a = 0 := by omega
    subst this
    exact le_refl _
  | succ b ih =>
    intro a ha hb
    rcases Nat.lt_or_ge a (b + 1) with h | h
    · have h1 := ih a (by omega) (by omega)
      have h2 := hg.step b (by omega)
      have e : 2 * (b + 1) = 2 * b + 2 := by ring
      rw [e]
      exact le_trans h1 (le_of_lt h2)
    · have : a = b + 1 := by omega
      subst this
      exact le_refl _

/-- The search loop started at an even index `2 * a` whose distance is at most
`x` stops at an even index `2 * j` whose segment brackets `x`. -/
theorem searchLoop_spec {g : List K} (hlen : g.length = 22) (x : K) :
    ∀ d a, 9 - a = d → a ≤ 9 → g.getD (2 * a) 0 ≤ x →
      ∃ j, searchLoop g x (2 * a) = Except.ok (2 * j) ∧ a ≤ j ∧ j ≤ 9 ∧
        g.getD (2 * j) 0 ≤ x ∧ (j < 9 → x < g.getD (2 * j + 2) 0) := by
  intro d
  induction d with
  | zero =>
    intro a hd ha hx
    have e : a = 9 := by omega
    subst e
    exact ⟨9, searchLoop_stop g x _ (by omega), le_refl _, le_refl _, hx, fun h => absurd h (by omega)⟩
  | succ d ih =>
    intro a hd ha hx
    have ha' : 2 * a < 18 := by omega
    rw [searchLoop_step g x _ ha' hlen]
    by_cases h2 : x ≥ g.getD (2 * a + 2) 0
    · rw [if_pos (Or.inr h2)]
      have e : 2 * a + 2 = 2 * (a + 1) := by ring
      rw [e] at h2 ⊢
      obtain ⟨j, h1, h3, h4, h5, h6⟩ := ih (a + 1) (by omega) (by omega) h2
      exact ⟨j, h1, by omega, h4, h5, h6⟩
    · rw [if_neg (by
        intro h
        rcases h with h | h
        · exact absurd hx (not_le.mpr h)
        · exact h2 h)]
      exact ⟨a, rfl, le_refl _, ha, hx, fun _ => not_le.mp h2⟩

/-- The search loop finds segment `k` when `x` lies in it (the last segment,
`k = 9`, is closed on the right). -/
theorem searchLoop_seg {g : List K} (hg : TableOK g) (x : K) (k : Nat) (hk : k ≤ 9)
    (h1 : g.getD (2 * k) 0 ≤ x) (h2 : x < g.getD (2 * k + 2) 0 ∨ k = 9) :
    searchLoop g x 0 = Except.ok (2 * k) := by
  have hx0 : g.getD (2 * 0) 0 ≤ x := by
    have := hg.mono k 0 (Nat.zero_le _) (by omega)
    exact le_trans this h1
  obtain ⟨j, e, -, hj, h3, h4⟩ := searchLoop_spec hg.len x 9 0 rfl (by omega) hx0
  have e0 : (0 : Nat) = 2 * 0 := rfl
  rw [e0, e]
  rcases Nat.lt_trichotomy j k with h | h | h
  · exfalso
    have h5 := h4 (by omega)
    have h6 := hg.mono k (j + 1) (by omega) (by omega)
    have e1 : 2 * (j + 1) = 2 * j + 2 := by ring
    rw [e1] at h6
    exact absurd (lt_of_lt_of_le h5 (le_trans h6 h1)) (lt_irrefl _)
  · rw [h]
  · exfalso
    rcases h2 with h2 | h2
    · have h6 := hg.mono j (k + 1) (by omega) (by omega)
      have e1 : 2 * (k + 1) = 2 * k + 2 := by ring
      rw [e1] at h6
      exact absurd (lt_of_lt_of_le h2 (le_trans h6 h3)) (lt_irrefl _)
    · omega

end TableLemmas

/-! ## What `gerstnerZ` returns -/

section ValueLemmas

variable {K : Type} [LinearOrderedField K]

/-- The value the two `return` statements produce at a stopping index `i`
whose distance is at most `x`. -/
theorem interpolate_eq (g : List K) (hlen : g.length = 22) (x yScale : K) (i : Nat)
    (hi : i ≤ 18) (h : g.getD i 0 ≤ x) :
    interpolate g x yScale i =
      Except.ok (if x = g.getD i 0 then g.getD (i + 1) 0 * yScale
        else ((g.getD (i + 3) 0 - g.getD (i + 1) 0) * (x - g.getD i 0)
          / (g.getD (i + 2) 0 - g.getD i 0) + g.getD (i + 3) 0) * yScale) := by
  unfold interpolate
  rw [readTab_eq g i (by omega), readTab_eq g (i + 1) (by omega),
    readTab_eq g (i + 2) (by omega), readTab_eq g (i + 3) (by omega)]
  by_cases h1 : x = g.getD i 0
  · rw [if_pos h1]
    show (if x = g.getD i 0 then _ else _) = _
    rw [if_pos h1]
    rfl
  · have h2 : x > g.getD i 0 := lt_of_le_of_ne h (Ne.symm h1)
    rw [if_neg h1]
    show (if x = g.getD i 0 then _ else _) = _
    rw [if_neg h1, if_pos h2]
    rfl

/-- The result of `gerstnerZ` when the folded distance lies in segment `k`
(the last segment, `k = 9`, is closed on the right). -/
theorem gerstnerZ_seg [FloorRing K] {g : List K} (hg : TableOK g) (L h xin : K) (k : Nat)
    (hk : k ≤ 9) (h1 : g.getD (2 * k) 0 ≤ foldDist L xin)
    (h2 : foldDist L xin < g.getD (2 * k + 2) 0 ∨ k = 9) :
    gerstnerZ L h xin g =
      Except.ok (if foldDist L xin = g.getD (2 * k) 0 then g.getD (2 * k + 1) 0 * (h / 50)
        else ((g.getD (2 * k + 3) 0 - g.getD (2 * k + 1) 0) * (foldDist L xin - g.getD (2 * k) 0)
          / (g.getD (2 * k + 2) 0 - g.getD (2 * k) 0) + g.getD (2 * k + 3) 0) * (h / 50)) := by
  show (searchLoop g (foldDist L xin) 0 >>= fun i => interpolate g (foldDist L xin) (h / 50) i) = _
  rw [searchLoop_seg hg _ k hk h1 h2]
  exact interpolate_eq g hg.len _ _ _ (by omega) h1

/-- On a good table `gerstnerZ` always reaches a `return`. -/
theorem gerstnerZ_total [FloorRing K] {g : List K} (hg : TableOK g) (L h xin : K) :
    ∃ v, gerstnerZ L h xin g = Except.ok v := by
  have hx0 : g.getD (2 * 0) 0 ≤ foldDist L xin := by
    rw [Nat.mul_zero, hg.first]
    exact (foldDist_range L xin).1
  obtain ⟨j, e, -, hj, h3, h4⟩ := searchLoop_spec hg.len (foldDist L xin) 9 0 rfl (by omega) hx0
  have h2 : foldDist L xin < g.getD (2 * j + 2) 0 ∨ j = 9 := by
    rcases Nat.lt_or_ge j 9 with h5 | h5
    · exact Or.inl (h4 h5)
    · exact Or.inr (by omega)
  exact ⟨_, gerstnerZ_seg hg L h xin j hj h3 h2⟩

/-- The result of `gerstnerZ` only depends on the folded distance. -/
theorem gerstnerZ_congr [FloorRing K] (g : List K) (L1 L2 h x1 x2 : K)
    (e : foldDist L1 x1 = foldDist L2 x2) : gerstnerZ L1 h x1 g = gerstnerZ L2 h x2 g := by
  show (searchLoop g (foldDist L1 x1) 0 >>= fun i => interpolate g (foldDist L1 x1) (h / 50) i)
    = (searchLoop g (foldDist L2 x2) 0 >>= fun i => interpolate g (foldDist L2 x2) (h / 50) i)
  rw [e]

end ValueLemmas

/-! ## Loop invariants -/

section LoopLemmas

theorem forLoop_inv {σ : Type} (P : Nat → σ → Prop) (body : Nat → σ → σ) (s : σ) (n : Nat)
    (h0 : P 0 s) (hs : ∀ i, i < n → ∀ t, P i t → P (i + 1) (body i t)) :
    P n (forLoop n body s) := by
  induction n with
  | zero => exact h0
  | succ n ih =>
    exact hs n (Nat.lt_succ_self n) _ (ih (fun i hi t ht => hs i (Nat.lt_succ_of_lt hi) t ht))

theorem forLoopE_inv {σ : Type} (P : Nat → σ → Prop) (body : Nat → σ → Except Fault σ) (s : σ)
    (n : Nat) (h0 : P 0 s)
    (hs : ∀ i, i < n → ∀ t, P i t → ∃ t', body i t = Except.ok t' ∧ P (i + 1) t') :
    ∃ t, forLoopE n body s = Except.ok t ∧ P n t := by
  induction n with
  | zero => exact ⟨s, rfl, h0⟩
  | succ n ih =>
    obtain ⟨t, e, ht⟩ := ih (fun i hi t ht => hs i (Nat.lt_succ_of_lt hi) t ht)
    obtain ⟨t', e', ht'⟩ := hs n (Nat.lt_succ_self n) t ht
    refine ⟨t', ?_, ht'⟩
    show (match forLoopE n body s with
      | Except.ok s1 => body n s1
      | Except.error e => Except.error e) = _
    rw [e]
    exact e'

/-- Invariant rule for two nested `for` loops: `Q` counts the iterations of
the inner body that have run. -/
theorem forLoop_nested_inv {σ : Type} (Q : Nat → σ → Prop) (body : Nat → Nat → σ → σ) (s : σ)
    (R C : Nat) (h0 : Q 0 s)
    (hs : ∀ i j, i < R → j < C → ∀ t, Q (i * C + j) t → Q (i * C + j + 1) (body i j t)) :
    Q (R * C) (forLoop R (fun i st => forLoop C (fun j st => body i j st) st) s) := by
  apply forLoop_inv (fun i t => Q (i * C) t)
  · simpa using h0
  · intro i hi t ht
    have e : (i + 1) * C = i * C + C := by ring
    rw [e]
    apply forLoop_inv (fun j t => Q (i * C + j) t)
    · simpa using ht
    · intro j hj t' ht'
      exact hs i j hi hj t' ht'

theorem forLoopE_nested_inv {σ : Type} (Q : Nat → σ → Prop)
    (body : Nat → Nat → σ → Except Fault σ) (s : σ) (R C : Nat) (h0 : Q 0 s)
    (hs : ∀ i j, i < R → j < C → ∀ t, Q (i * C + j) t →
      ∃ t', body i j t = Except.ok t' ∧ Q (i * C + j + 1) t') :
    ∃ t, forLoopE R (fun i st => forLoopE C (fun j st => body i j st) st) s = Except.ok t ∧
      Q (R * C) t := by
  apply forLoopE_inv (fun i t => Q (i * C) t)
  · simpa using h0
  · intro i hi t ht
    have e : (i + 1) * C = i * C + C := by ring
    rw [e]
    apply forLoopE_inv (fun j t => Q (i * C + j) t)
    · simpa using ht
    · intro j hj t' ht'
      exact hs i j hi hj t' ht'

end LoopLemmas

/-! ## The height stage -/

section HeightLemmas

variable {K : Type} [LinearOrderedField K]

theorem gerstnerZ_eq_val [FloorRing K] {g : List K} (hg : TableOK g) (L h x : K) :
    gerstnerZ L h x g = Except.ok (gerstnerZ_val L h x g) := by
  obtain ⟨v, e⟩ := gerstnerZ_total hg L h x
  unfold gerstnerZ_val
  rw [e]

theorem waveTable_ok (cfg : Config K) (w : Nat) : TableOK (waveTable cfg w) := by
  unfold waveTable
  split_ifs
  · exact tableOK_a
  · exact tableOK_b

theorem waveBody_eq [FloorRing K] (cfg : Config K) (v : Values K) (px py : K) (w : Nat) (wave : K) :
    waveBody cfg v px py w wave =
      Except.ok (wave + (v.wave_height w - gerstnerZ_val (v.wave_length w) (v.wave_height w)
        (lookupArg cfg v px py w) (waveTable cfg w))) := by
  unfold waveBody waveTable
  split_ifs with h
  · rw [gerstnerZ_eq_val tableOK_a]
  · rw [gerstnerZ_eq_val tableOK_b]

theorem waveLoop_eq [FloorRing K] (cfg : Config K) (v : Values K) (px py : K) :
    forLoopE cfg.WAVE_COUNT (waveBody cfg v px py) 0 = Except.ok (waveSum cfg v px py) := by
  obtain ⟨t, e, ht⟩ := forLoopE_inv
    (fun n (t : K) => t = ∑ w in Finset.range n,
      (v.wave_height w - gerstnerZ_val (v.wave_length w) (v.wave_height w)
        (lookupArg cfg v px py w) (waveTable cfg w)))
    (waveBody cfg v px py) 0 cfg.WAVE_COUNT (by simp)
    (by
      intro i _ t ht
      refine ⟨_, waveBody_eq cfg v px py i t, ?_⟩
      show t + _ = ∑ w in Finset.range (i + 1), _
      rw [Finset.sum_range_succ, ht])
  rw [e, ht]
  rfl

theorem heightBody_eq [FloorRing K] (cfg : Config K) (v : Values K) (st : Int × Buf K) :
    heightBody cfg v st =
      Except.ok (st.1 + 3, Function.update st.2 (st.1 + 2)
        (cfg.START_Z + waveSum cfg v (st.2 st.1) (st.2 (st.1 + 1)) * cfg.HEIGHT_SCALE)) := by
  unfold heightBody
  simp only
  rw [waveLoop_eq]

/-- The height stage never faults; it writes the `z` entry of every grid point
and nothing else. -/
theorem heightStage_spec [FloorRing K] (cfg : Config K) (v : Values K) (ps : Buf K) :
    ∃ ps', heightStage cfg v ps = Except.ok ps' ∧
      (∀ m : Nat, m < cfg.STRIP_COUNT * cfg.STRIP_LENGTH →
        ps' (3 * (m : Int) + 2) =
          cfg.START_Z + waveSum cfg v (ps (3 * (m : Int))) (ps (3 * (m : Int) + 1))
            * cfg.HEIGHT_SCALE) ∧
      (∀ q : Int, (∀ m : Nat, m < cfg.STRIP_COUNT * cfg.STRIP_LENGTH → q ≠ 3 * (m : Int) + 2) →
        ps' q = ps q) := by
  obtain ⟨t, e, h1, h2, h3⟩ := forLoopE_nested_inv
    (fun n (t : Int × Buf K) => t.1 = 3 * (n : Int) ∧
      (∀ m : Nat, m < n → t.2 (3 * (m : Int) + 2) =
          cfg.START_Z + waveSum cfg v (ps (3 * (m : Int))) (ps (3 * (m : Int) + 1))
            * cfg.HEIGHT_SCALE) ∧
      (∀ q : Int, (∀ m : Nat, m < n → q ≠ 3 * (m : Int) + 2) → t.2 q = ps q))
    (fun _ _ st => heightBody cfg v st) ((0 : Int), ps) cfg.STRIP_COUNT cfg.STRIP_LENGTH
    ⟨by simp, fun m hm => absurd hm (Nat.not_lt_zero m), fun q _ => rfl⟩
    (by
      intro i j _ _ t ht
      obtain ⟨h1, h2, h3⟩ := ht
      generalize i * cfg.STRIP_LENGTH + j = n at h1 h2 h3 ⊢
      refine ⟨_, heightBody_eq cfg v t, ?_, ?_, ?_⟩
      · show t.1 + 3 = _
        rw [h1]; push_cast; ring
      · intro m hm
        show Function.update t.2 (t.1 + 2) _ _ = _
        rcases Nat.lt_or_ge m n with h | h
        · rw [Function.update_noteq (by rw [h1]; omega)]
          exact h2 m h
        · have e : m = n := by omega
          subst e
          rw [h1, Function.update_same]
          rw [h3 (3 * (m : Int)) (fun k _ => by omega),
            h3 (3 * (m : Int) + 1) (fun k _ => by omega)]
      · intro q hq
        show Function.update t.2 (t.1 + 2) _ _ = _
        rw [Function.update_noteq (by rw [h1]; exact hq n (Nat.lt_succ_self n))]
        exact h3 q (fun m hm => hq m (Nat.lt_succ_of_lt hm)))
  refine ⟨t.2, ?_, h2, h3⟩
  unfold heightStage
  rw [e]

end HeightLemmas

/-! ## The strip packer -/

section PackLemmas

variable {K : Type} [LinearOrderedField K]

theorem flat_index_unique {D c l i j : Nat} (hl : l < D) (hj : j < D)
    (e : c * D + l = i * D + j) : c = i ∧ l = j := by
  have h1 : (c * D + l) / D = c := by
    rw [Nat.add_comm, Nat.add_mul_div_right _ _ (by omega), Nat.div_eq_of_lt hl, Nat.zero_add]
  have h2 : (i * D + j) / D = i := by
    rw [Nat.add_comm, Nat.add_mul_div_right _ _ (by omega), Nat.div_eq_of_lt hj, Nat.zero_add]
  have h3 : c = i := by rw [← h1, ← h2, e]
  subst h3
  exact ⟨rfl, by omega⟩

theorem flat_index_lt {D c l R : Nat} (hc : c < R) (hl : l < D) : c * D + l < R * D := by
  have h1 : (c + 1) * D ≤ R * D := Nat.mul_le_mul_right D hc
  have h2 : (c + 1) * D = c * D + D := by ring
  omega

/-- One iteration of the packer writes the three components of slot
`STRIP_LENGTH*2*c + l` and nothing else. -/
theorem packBody_spec {K : Type} (cfg : Config K) (ps pn : Buf K) (c l : Nat) (st : Buf K × Buf K) :
    (∀ k : Nat, k < 3 →
      (packBody cfg ps pn c l st).1 (((cfg.STRIP_LENGTH : Int) * 2 * c + l) * 3 + k)
          = ps (stripPt cfg.STRIP_LENGTH c l * 3 + k) ∧
      (packBody cfg ps pn c l st).2 (((cfg.STRIP_LENGTH : Int) * 2 * c + l) * 3 + k)
          = pn (stripPt cfg.STRIP_LENGTH c l * 3 + k)) ∧
    (∀ q : Int, (q < ((cfg.STRIP_LENGTH : Int) * 2 * c + l) * 3 ∨
        q ≥ ((cfg.STRIP_LENGTH : Int) * 2 * c + l) * 3 + 3) →
      (packBody cfg ps pn c l st).1 q = st.1 q ∧ (packBody cfg ps pn c l st).2 q = st.2 q) := by
  generalize hidx : ((cfg.STRIP_LENGTH : Int) * 2 * c + l) = idx
  have e : packBody cfg ps pn c l st =
      (Function.update (Function.update (Function.update st.1 (idx * 3 + (0 : Nat))
          (ps (stripPt cfg.STRIP_LENGTH c l * 3 + (0 : Nat))))
          (idx * 3 + (1 : Nat)) (ps (stripPt cfg.STRIP_LENGTH c l * 3 + (1 : Nat))))
          (idx * 3 + (2 : Nat)) (ps (stripPt cfg.STRIP_LENGTH c l * 3 + (2 : Nat))),
       Function.update (Function.update (Function.update st.2 (idx * 3 + (0 : Nat))
          (pn (stripPt cfg.STRIP_LENGTH c l * 3 + (0 : Nat))))
          (idx * 3 + (1 : Nat)) (pn (stripPt cfg.STRIP_LENGTH c l * 3 + (1 : Nat))))
          (idx * 3 + (2 : Nat)) (pn (stripPt cfg.STRIP_LENGTH c l * 3 + (2 : Nat)))) := by
    rw [← hidx]
    rfl
  rw [e]
  constructor
  · intro k hk
    interval_cases k
    · constructor <;>
        simp only [Function.update_apply] <;> norm_num
    · constructor <;>
        simp only [Function.update_apply] <;> norm_num
    · constructor <;>
        simp only [Function.update_apply] <;> norm_num
  · intro q hq
    have h0 : q ≠ idx * 3 + (0 : Nat) := by push_cast; omega
    have h1 : q ≠ idx * 3 + (1 : Nat) := by push_cast; omega
    have h2 : q ≠ idx * 3 + (2 : Nat) := by push_cast; omega
    constructor <;>
      simp only [Function.update_noteq h2, Function.update_noteq h1, Function.update_noteq h0]

/-- The strip packer writes, for every strip `c < STRIP_COUNT-1` and slot
`l < 2*STRIP_LENGTH`, the three components of grid point `stripPt c l`, and
leaves every entry outside `[0, (STRIP_COUNT-1)*2*STRIP_LENGTH*3)` as it was. -/
theorem packStage_spec {K : Type} (cfg : Config K) (ps pn vd nd : Buf K) :
    (∀ c l : Nat, c < cfg.STRIP_COUNT - 1 → l < 2 * cfg.STRIP_LENGTH → ∀ k : Nat, k < 3 →
      (packStage cfg ps pn vd nd).1 (((cfg.STRIP_LENGTH : Int) * 2 * c + l) * 3 + k)
          = ps (stripPt cfg.STRIP_LENGTH c l * 3 + k) ∧
      (packStage cfg ps pn vd nd).2 (((cfg.STRIP_LENGTH : Int) * 2 * c + l) * 3 + k)
          = pn (stripPt cfg.STRIP_LENGTH c l * 3 + k)) ∧
    (∀ q : Int, (q < 0 ∨
        q ≥ 3 * (((cfg.STRIP_COUNT - 1) * (2 * cfg.STRIP_LENGTH) : Nat) : Int)) →
      (packStage cfg ps pn vd nd).1 q = vd q ∧ (packStage cfg ps pn vd nd).2 q = nd q) := by
  have key := forLoop_nested_inv
    (fun n (t : Buf K × Buf K) =>
      (∀ c l : Nat, l < 2 * cfg.STRIP_LENGTH → c * (2 * cfg.STRIP_LENGTH) + l < n →
        ∀ k : Nat, k < 3 →
          t.1 (((cfg.STRIP_LENGTH : Int) * 2 * c + l) * 3 + k)
            = ps (stripPt cfg.STRIP_LENGTH c l * 3 + k) ∧
          t.2 (((cfg.STRIP_LENGTH : Int) * 2 * c + l) * 3 + k)
            = pn (stripPt cfg.STRIP_LENGTH c l * 3 + k)) ∧
      (∀ q : Int, (q < 0 ∨ q ≥ 3 * (n : Int)) → t.1 q = vd q ∧ t.2 q = nd q))
    (fun c l st => packBody cfg ps pn c l st) (vd, nd) (cfg.STRIP_COUNT - 1)
    (2 * cfg.STRIP_LENGTH)
    ⟨fun c l _ h => absurd h (Nat.not_lt_zero _), fun q _ => ⟨rfl, rfl⟩⟩
    (by
      intro i j _ hj t ht
      obtain ⟨h1, h2⟩ := ht
      obtain ⟨b1, b2⟩ := packBody_spec cfg ps pn i j t
      have eI : ((cfg.STRIP_LENGTH : Int) * 2 * i + j)
          = ((i * (2 * cfg.STRIP_LENGTH) + j : Nat) : Int) := by push_cast; ring
      constructor
      · intro c l hl hlt k hk
        rcases Nat.lt_or_ge (c * (2 * cfg.STRIP_LENGTH) + l) (i * (2 * cfg.STRIP_LENGTH) + j)
          with h | h
        · have eC : ((cfg.STRIP_LENGTH : Int) * 2 * c + l)
              = ((c * (2 * cfg.STRIP_LENGTH) + l : Nat) : Int) := by push_cast; ring
          have hq := b2 (((cfg.STRIP_LENGTH : Int) * 2 * c + l) * 3 + k)
            (Or.inl (by rw [eC, eI]; omega))
          rw [hq.1, hq.2]
          exact h1 c l hl h k hk
        · have e1 : c * (2 * cfg.STRIP_LENGTH) + l = i * (2 * cfg.STRIP_LENGTH) + j := by omega
          obtain ⟨e2, e3⟩ := flat_index_unique hl hj e1
          subst e2 e3
          exact b1 k hk
      · intro q hq
        have hq' := b2 q (by rw [eI]; omega)
        rw [hq'.1, hq'.2]
        exact h2 q (by omega))
  obtain ⟨k1, k2⟩ := key
  refine ⟨fun c l hc hl k hk => ?_, fun q hq => ?_⟩
  · exact k1 c l hl (flat_index_lt hc hl) k hk
  · exact k2 q hq

end PackLemmas

/-! ## `calcuWave` as a whole -/

section CalcuWave

variable {K : Type} [LinearOrderedField K]

/-- The function `calcuWave` never faults: it is the composition of its three stages. -/
theorem calcuWave_eq [FloorRing K] (cfg : Config K) (s : State K) :
    ∃ ps, heightStage cfg s.values s.pt_strip = Except.ok ps ∧
      calcuWave cfg s = Except.ok
        { s with
          pt_strip := ps
          pt_normal := (normalStage cfg ps s.pt_normal s.log).1
          log := (normalStage cfg ps s.pt_normal s.log).2
          vertex_data :=
            (packStage cfg ps (normalStage cfg ps s.pt_normal s.log).1
              s.vertex_data s.normal_data).1
          normal_data :=
            (packStage cfg ps (normalStage cfg ps s.pt_normal s.log).1
              s.vertex_data s.normal_data).2 } := by
  obtain ⟨ps, e, -⟩ := heightStage_spec cfg s.values s.pt_strip
  refine ⟨ps, e, ?_⟩
  unfold calcuWave
  rw [e]

theorem stripPt_eq (C c l : Nat) :
    stripPt C c l =
      (((if l % 2 = 0 then (c + 1) * C + l / 2 else c * C + (l - 1) / 2) : Nat) : Int) := by
  unfold stripPt
  have e1 : ((l : Int) / 2) = ((l / 2 : Nat) : Int) := by omega
  rw [e1]
  by_cases h : l % 2 = 1
  · have h' : ¬ l % 2 = 0 := by omega
    have e2 : (l - 1) / 2 = l / 2 := by omega
    rw [if_pos h, if_neg h', e2]
    push_cast
    ring
  · have h' : l % 2 = 0 := by omega
    rw [if_neg h, if_pos h']
    push_cast
    ring

/-- Claim C1. Height formula of `calcuWave`: the call succeeds, leaves the
lattice coordinates `x`, `y` of every grid point `(i, j)` in place and stores
`z = START_Z + HEIGHT_SCALE * Σ_w (height_w - gerstnerZ(length_w, height_w,
d_w + speed_w * t, table_w))` with
`d_w = (x - startx_w + (y - starty_w) * tan(dir_w)) * cos(dir_w)` and `table_w`
being `gerstner_pt_a` iff `gerstner_sort[w] = 1`; for a wave of direction 0,
speed 0 and origin (0,0) (with `tan 0 = 0`, `cos 0 = 1`) the lookup argument
is `x`. -/
theorem calcuWave_height_formula [FloorRing K] (cfg : Config K) (s : State K) :
    ∃ s', calcuWave cfg s = Except.ok s' ∧
      ∀ i j : Nat, i < cfg.STRIP_COUNT → j < cfg.STRIP_LENGTH →
        s'.pt_strip (gridIndex cfg.STRIP_LENGTH i j) = s.pt_strip (gridIndex cfg.STRIP_LENGTH i j) ∧
        s'.pt_strip (gridIndex cfg.STRIP_LENGTH i j + 1)
          = s.pt_strip (gridIndex cfg.STRIP_LENGTH i j + 1) ∧
        ∃ zs : Nat → K,
          (∀ w, w < cfg.WAVE_COUNT →
            gerstnerZ (s.values.wave_length w) (s.values.wave_height w)
              ((s.pt_strip (gridIndex cfg.STRIP_LENGTH i j) - s.values.wave_start (w * 2)
                  + (s.pt_strip (gridIndex cfg.STRIP_LENGTH i j + 1)
                      - s.values.wave_start (w * 2 + 1)) * cfg.tan (s.values.wave_dir w))
                * cfg.cos (s.values.wave_dir w) + s.values.wave_speed w * s.values.time)
              (if cfg.gerstner_sort w = 1 then gerstner_pt_a else gerstner_pt_b)
              = Except.ok (zs w)) ∧
          (∀ w, w < cfg.WAVE_COUNT → s.values.wave_dir w = 0 → s.values.wave_speed w = 0 →
            s.values.wave_start (w * 2) = 0 → s.values.wave_start (w * 2 + 1) = 0 →
            cfg.tan 0 = 0 → cfg.cos 0 = 1 →
            gerstnerZ (s.values.wave_length w) (s.values.wave_height w)
              (s.pt_strip (gridIndex cfg.STRIP_LENGTH i j))
              (if cfg.gerstner_sort w = 1 then gerstner_pt_a else gerstner_pt_b)
              = Except.ok (zs w)) ∧
          s'.pt_strip (gridIndex cfg.STRIP_LENGTH i j + 2) =
            cfg.START_Z + cfg.HEIGHT_SCALE *
              ∑ w in Finset.range cfg.WAVE_COUNT, (s.values.wave_height w - zs w) := by
  obtain ⟨ps, e, h1, h2⟩ := heightStage_spec cfg s.values s.pt_strip
  obtain ⟨ps', e', hc⟩ := calcuWave_eq cfg s
  have eps : ps' = ps := by
    rw [e] at e'
    exact (Except.ok.inj e').symm
  rw [eps] at hc
  refine ⟨_, hc, ?_⟩
  intro i j hi hj
  have hm : i * cfg.STRIP_LENGTH + j < cfg.STRIP_COUNT * cfg.STRIP_LENGTH :=
    flat_index_lt hi hj
  unfold gridIndex
  generalize i * cfg.STRIP_LENGTH + j = m at hm
  have a0 : ((m : Int) * 3) = 3 * (m : Int) := by ring
  have a2 : ((m : Int) * 3 + 2) = 3 * (m : Int) + 2 := by ring
  have a1 : ((m : Int) * 3 + 1) = 3 * (m : Int) + 1 := by ring
  rw [a2, a1, a0]
  refine ⟨h2 _ (fun k _ => by omega), h2 _ (fun k _ => by omega), ?_⟩
  refine ⟨fun w => gerstnerZ_val (s.values.wave_length w) (s.values.wave_height w)
    (lookupArg cfg s.values (s.pt_strip (3 * (m : Int))) (s.pt_strip (3 * (m : Int) + 1)) w)
    (waveTable cfg w), ?_, ?_, ?_⟩
  · intro w _
    exact gerstnerZ_eq_val (waveTable_ok cfg w) _ _ _
  · intro w _ hd hs hx hy ht hc
    have ea : lookupArg cfg s.values (s.pt_strip (3 * (m : Int)))
        (s.pt_strip (3 * (m : Int) + 1)) w = s.pt_strip (3 * (m : Int)) := by
      unfold lookupArg
      simp only [hd, hs, hx, hy, ht, hc]
      ring
    beta_reduce
    rw [ea]
    exact gerstnerZ_eq_val (waveTable_ok cfg w) _ _ _
  · show ps (3 * (m : Int) + 2) = _
    rw [h1 m hm]
    unfold waveSum
    ring

/-- Witness for claim C1. The height formula at grid point (0,0) of the 2×2
scenario of the specification. -/
theorem calcuWave_height_formula_witness :
    (0 < scenarioConfig.STRIP_COUNT ∧ 0 < scenarioConfig.STRIP_LENGTH) ∧
    ∃ s', calcuWave scenarioConfig (initWave scenarioConfig zeroState) = Except.ok s' ∧
      ∃ zs : Nat → ℚ,
        s'.pt_strip (gridIndex scenarioConfig.STRIP_LENGTH 0 0 + 2) =
          scenarioConfig.START_Z + scenarioConfig.HEIGHT_SCALE *
            ∑ w in Finset.range scenarioConfig.WAVE_COUNT,
              ((initWave scenarioConfig zeroState).values.wave_height w - zs w) := by
  refine ⟨⟨by decide, by decide⟩, ?_⟩
  obtain ⟨s', h, H⟩ :=
    calcuWave_height_formula scenarioConfig (initWave scenarioConfig zeroState)
  obtain ⟨-, -, zs, -, -, hz⟩ := H 0 0 (by decide) (by decide)
  exact ⟨s', h, zs, hz⟩

/-- Claim C3. Index mapping of the strip packer of `calcuWave`: slot `l` of
strip `c` (output index `2C*c + l`) receives, in `vertex_data` from `pt_strip`
and in `normal_data` from `pt_normal`, the three components of grid point
`p = (c+1)*C + l/2` when `l` is even and `p = c*C + (l-1)/2` when `l` is odd;
on a 3×2 grid the eight slots hold grid points 2,0,3,1,4,2,5,3, that is
(1,0),(0,0),(1,1),(0,1),(2,0),(1,0),(2,1),(1,1). -/
theorem calcuWave_pack_mapping [FloorRing K] (cfg : Config K) (s : State K) :
    ∃ s', calcuWave cfg s = Except.ok s' ∧
      (∀ c l k : Nat, c < cfg.STRIP_COUNT - 1 → l < 2 * cfg.STRIP_LENGTH → k < 3 →
        s'.vertex_data ((((2 * cfg.STRIP_LENGTH * c + l) * 3 + k : Nat) : Int)) =
          s'.pt_strip ((((if l % 2 = 0 then (c + 1) * cfg.STRIP_LENGTH + l / 2
            else c * cfg.STRIP_LENGTH + (l - 1) / 2) * 3 + k : Nat) : Int)) ∧
        s'.normal_data ((((2 * cfg.STRIP_LENGTH * c + l) * 3 + k : Nat) : Int)) =
          s'.pt_normal ((((if l % 2 = 0 then (c + 1) * cfg.STRIP_LENGTH + l / 2
            else c * cfg.STRIP_LENGTH + (l - 1) / 2) * 3 + k : Nat) : Int))) ∧
      (cfg.STRIP_COUNT = 3 → cfg.STRIP_LENGTH = 2 →
        ∀ m k : Nat, m < 8 → k < 3 →
          s'.vertex_data (((m * 3 + k : Nat) : Int)) =
            s'.pt_strip ((([2, 0, 3, 1, 4, 2, 5, 3].getD m 0 * 3 + k : Nat) : Int)) ∧
          s'.normal_data (((m * 3 + k : Nat) : Int)) =
            s'.pt_normal ((([2, 0, 3, 1, 4, 2, 5, 3].getD m 0 * 3 + k : Nat) : Int))) := by
  obtain ⟨ps, -, hc⟩ := calcuWave_eq cfg s
  refine ⟨_, hc, ?_⟩
  have main : ∀ c l k : Nat, c < cfg.STRIP_COUNT - 1 → l < 2 * cfg.STRIP_LENGTH → k < 3 →
      (packStage cfg ps (normalStage cfg ps s.pt_normal s.log).1 s.vertex_data s.normal_data).1
          ((((2 * cfg.STRIP_LENGTH * c + l) * 3 + k : Nat) : Int)) =
        ps ((((if l % 2 = 0 then (c + 1) * cfg.STRIP_LENGTH + l / 2
          else c * cfg.STRIP_LENGTH + (l - 1) / 2) * 3 + k : Nat) : Int)) ∧
      (packStage cfg ps (normalStage cfg ps s.pt_normal s.log).1 s.vertex_data s.normal_data).2
          ((((2 * cfg.STRIP_LENGTH * c + l) * 3 + k : Nat) : Int)) =
        (normalStage cfg ps s.pt_normal s.log).1
          ((((if l % 2 = 0 then (c + 1) * cfg.STRIP_LENGTH + l / 2
            else c * cfg.STRIP_LENGTH + (l - 1) / 2) * 3 + k : Nat) : Int)) := by
    intro c l k hc' hl hk
    have h := (packStage_spec cfg ps (normalStage cfg ps s.pt_normal s.log).1
      s.vertex_data s.normal_data).1 c l hc' hl k hk
    rw [stripPt_eq] at h
    have e1 : ((((2 * cfg.STRIP_LENGTH * c + l) * 3 + k : Nat) : Int))
        = ((cfg.STRIP_LENGTH : Int) * 2 * c + l) * 3 + k := by push_cast; ring
    have e2 : ((((if l % 2 = 0 then (c + 1) * cfg.STRIP_LENGTH + l / 2
          else c * cfg.STRIP_LENGTH + (l - 1) / 2) * 3 + k : Nat) : Int))
        = (((if l % 2 = 0 then (c + 1) * cfg.STRIP_LENGTH + l / 2
          else c * cfg.STRIP_LENGTH + (l - 1) / 2 : Nat) : Int)) * 3 + k := by push_cast; ring
    rw [e1, e2]
    exact h
  refine ⟨main, ?_⟩
  intro hR hC m k hm hk
  have h := main (m / 4) (m % 4) k (by rw [hR]; omega) (by rw [hC]; omega) hk
  rw [hC] at h
  have e1 : (2 * 2 * (m / 4) + m % 4) = m := by omega
  rw [e1] at h
  have e2 : (if m % 4 % 2 = 0 then (m / 4 + 1) * 2 + m % 4 / 2
      else m / 4 * 2 + (m % 4 - 1) / 2) = [2, 0, 3, 1, 4, 2, 5, 3].getD m 0 := by
    interval_cases m <;> rfl
  rw [e2] at h
  exact h

/-- Witness for claim C3. The mapping at strip 0, slot 0, component 0 of the 2×2
scenario: output entry 0 holds entry 6 of the grid arrays (grid point (1,0)). -/
theorem calcuWave_pack_mapping_witness :
    (0 < scenarioConfig.STRIP_COUNT - 1 ∧ 0 < 2 * scenarioConfig.STRIP_LENGTH ∧ 0 < 3) ∧
    ∃ s', calcuWave scenarioConfig (initWave scenarioConfig zeroState) = Except.ok s' ∧
      s'.vertex_data 0 = s'.pt_strip 6 ∧ s'.normal_data 0 = s'.pt_normal 6 := by
  refine ⟨⟨by decide, by decide, by decide⟩, ?_⟩
  obtain ⟨s', h, H, -⟩ :=
    calcuWave_pack_mapping scenarioConfig (initWave scenarioConfig zeroState)
  exact ⟨s', h, H 0 0 0 (by decide) (by decide) (by decide)⟩

end CalcuWave

/-! ## Claims on `gerstnerZ` -/

section GerstnerClaims

variable {K : Type} [LinearOrderedField K]

theorem foldDist_neg [FloorRing K] (L x : K) : foldDist L (-x) = foldDist L x :=
  foldDist_eq_of_cong L (-x) L x ⟨0, Or.inr (by push_cast; ring)⟩

/-- Claim C2, the code at the failing input. Table A, wavelength 400, amplitude
50, distance 20 (segment (0,0)-(41.8,1.4)): `gerstnerZ` returns 2163/1045
(about 2.07), the linear interpolation is 140/209 (about 0.67); the difference
is `y_1 - y_0 = 1.4`, the `gerstner[i+3]` added where `gerstner[i+1]` belongs. -/
theorem gerstnerZ_interpolation_failing :
    gerstnerZ (400 : ℚ) 50 20 gerstner_pt_a = Except.ok (2163 / 1045) ∧
    ((0 : ℚ) + (1.4 - 0) * (20 - 0) / (41.8 - 0)) * (50 / 50) = 140 / 209 ∧
    (2163 / 1045 : ℚ) - 140 / 209 = 1.4 := by
  refine ⟨?_, by norm_num, by norm_num⟩
  have hf : foldDist (400 : ℚ) 20 = 20 := foldDist_id (by norm_num) (by norm_num)
  rw [gerstnerZ_seg tableOK_a 400 50 20 0 (by norm_num)
    (by rw [hf]; norm_num [gerstner_pt_a]) (Or.inl (by rw [hf]; norm_num [gerstner_pt_a]))]
  rw [hf]
  norm_num [gerstner_pt_a]

/-- In exact arithmetic, the folding at the start of `gerstnerZ` yields a
lookup coordinate in the closed interval `[0, 200]`, for every input distance
and every wavelength `> 0`.  The rounding of the `float` code is not covered. -/
theorem gerstnerZ_fold_in_range [FloorRing K] (w_length x_in : K) (_hL : 0 < w_length) :
    0 ≤ foldDist w_length x_in ∧ foldDist w_length x_in ≤ 200 :=
  foldDist_range w_length x_in

/-- An instance of `gerstnerZ_fold_in_range`: wavelength 1.6 and distance -4
(the first grid point and the first wave of the program). -/
theorem gerstnerZ_fold_in_range_witness :
    (0 : ℚ) < 1.6 ∧ 0 ≤ foldDist (1.6 : ℚ) (-4) ∧ foldDist (1.6 : ℚ) (-4) ≤ 200 :=
  ⟨by norm_num, gerstnerZ_fold_in_range (1.6 : ℚ) (-4) (by norm_num)⟩

/-- Claim C7, the code at the failing input. Table A, wavelength 400, amplitude
50, distance 200, the last control point (200, 50): `gerstnerZ` returns 51.5
and not `y_10 * amplitude / 50 = 50`. -/
theorem gerstnerZ_last_control_point_failing :
    gerstnerZ (400 : ℚ) 50 200 gerstner_pt_a = Except.ok (103 / 2) ∧
    foldDist (400 : ℚ) 200 = (gerstner_pt_a : List ℚ).getD 20 0 ∧
    (gerstner_pt_a : List ℚ).getD 21 0 * (50 / 50) = 50 := by
  have hf : foldDist (400 : ℚ) 200 = 200 := foldDist_id (by norm_num) (by norm_num)
  refine ⟨?_, by rw [hf]; norm_num [gerstner_pt_a], by norm_num [gerstner_pt_a]⟩
  rw [gerstnerZ_seg tableOK_a 400 50 200 9 (by norm_num)
    (by rw [hf]; norm_num [gerstner_pt_a]) (Or.inr rfl)]
  rw [hf]
  norm_num [gerstner_pt_a]

/-- On either table, `gerstnerZ` returns `y_k * amplitude / 50` when the
folded distance is the control point `x_k`, for `k = 0..9`. -/
theorem gerstnerZ_at_control_point [FloorRing K] {g : List K} (hg : TableOK g) (L h x : K)
    (k : Nat) (hk : k ≤ 9) (hx : foldDist L x = g.getD (2 * k) 0) :
    gerstnerZ L h x g = Except.ok (g.getD (2 * k + 1) 0 * (h / 50)) := by
  rw [gerstnerZ_seg hg L h x k hk (le_of_eq hx.symm)
    (Or.inl (by rw [hx]; exact hg.step k (by omega))), if_pos hx]

/-- In exact arithmetic, `gerstnerZ` has period one wavelength: on either table
and for every wavelength `L > 0`, amplitude `h` and distance `x`, the calls at
`x + L` and at `x` return the same value.  The rounding of the `float` code is
not covered. -/
theorem gerstnerZ_periodic [FloorRing K] (L h x : K) (g : List K) (hL : 0 < L)
    (hg : g = gerstner_pt_a ∨ g = gerstner_pt_b) :
    ∃ v, gerstnerZ L h (x + L) g = Except.ok v ∧ gerstnerZ L h x g = Except.ok v := by
  have hok : TableOK g := by
    rcases hg with hg | hg
    · rw [hg]; exact tableOK_a
    · rw [hg]; exact tableOK_b
  obtain ⟨v, hv⟩ := gerstnerZ_total hok L h x
  refine ⟨v, ?_, hv⟩
  rw [← hv]
  apply gerstnerZ_congr
  apply foldDist_eq_of_cong
  refine ⟨1, Or.inl ?_⟩
  have : L ≠ 0 := ne_of_gt hL
  push_cast
  field_simp
  ring

/-- An instance of `gerstnerZ_periodic`: table B, wavelength 1.3, amplitude 0.1,
distance -4. -/
theorem gerstnerZ_periodic_witness :
    (0 : ℚ) < 1.3 ∧
    ∃ v, gerstnerZ (1.3 : ℚ) 0.1 (-4 + 1.3) gerstner_pt_b = Except.ok v ∧
      gerstnerZ (1.3 : ℚ) 0.1 (-4) gerstner_pt_b = Except.ok v :=
  ⟨by norm_num, gerstnerZ_periodic (1.3 : ℚ) 0.1 (-4) gerstner_pt_b (by norm_num) (Or.inr rfl)⟩

/-- In exact arithmetic, `gerstnerZ` is mirror-symmetric about the fold
boundary: on either table and for every wavelength `L > 0`, amplitude `h` and
`t`, the calls at `L/2 - t` and at `L/2 + t` (scaled distances `200 - ε` and
`200 + ε`) return the same value.  The rounding of the `float` code is not
covered. -/
theorem gerstnerZ_mirror [FloorRing K] (L h t : K) (g : List K) (hL : 0 < L)
    (hg : g = gerstner_pt_a ∨ g = gerstner_pt_b) :
    ∃ v, gerstnerZ L h (L / 2 - t) g = Except.ok v ∧
      gerstnerZ L h (L / 2 + t) g = Except.ok v := by
  have hok : TableOK g := by
    rcases hg with hg | hg
    · rw [hg]; exact tableOK_a
    · rw [hg]; exact tableOK_b
  obtain ⟨v, hv⟩ := gerstnerZ_total hok L h (L / 2 + t)
  refine ⟨v, ?_, hv⟩
  rw [← hv]
  apply gerstnerZ_congr
  apply foldDist_eq_of_cong
  refine ⟨1, Or.inr ?_⟩
  have : L ≠ 0 := ne_of_gt hL
  push_cast
  field_simp
  ring

/-- An instance of `gerstnerZ_mirror`: table A, wavelength 0.2, amplitude 0.01,
`t = 0.03`. -/
theorem gerstnerZ_mirror_witness :
    (0 : ℚ) < 0.2 ∧
    ∃ v, gerstnerZ (0.2 : ℚ) 0.01 (0.2 / 2 - 0.03) gerstner_pt_a = Except.ok v ∧
      gerstnerZ (0.2 : ℚ) 0.01 (0.2 / 2 + 0.03) gerstner_pt_a = Except.ok v :=
  ⟨by norm_num, gerstnerZ_mirror (0.2 : ℚ) 0.01 0.03 gerstner_pt_a (by norm_num) (Or.inl rfl)⟩

/-- Claim C10, the code around the wrap point. Table A, wavelength 400,
amplitude 50: the value at distance 0 is 0, while at every distance `x ≠ 0`
with `-41.8 < x < 41.8` the value is at least 1.4, so the values do not tend to
the value at the wrap point from either side. -/
theorem gerstnerZ_jump_at_wrap :
    gerstnerZ (400 : ℚ) 50 0 gerstner_pt_a = Except.ok 0 ∧
    ∀ x : ℚ, x ≠ 0 → -41.8 < x → x < 41.8 →
      ∃ v, gerstnerZ (400 : ℚ) 50 x gerstner_pt_a = Except.ok v ∧ 1.4 ≤ v := by
  constructor
  · have hf : foldDist (400 : ℚ) 0 = 0 := foldDist_id (by norm_num) (by norm_num)
    rw [gerstnerZ_at_control_point tableOK_a 400 50 0 0 (by norm_num)
      (by rw [hf]; norm_num [gerstner_pt_a])]
    norm_num [gerstner_pt_a]
  · intro x hx h1 h2
    have hf : foldDist (400 : ℚ) x = |x| := by
      rcases le_total 0 x with h | h
      · rw [abs_of_nonneg h]
        exact foldDist_id h (by linarith)
      · rw [abs_of_nonpos h, ← foldDist_neg]
        exact foldDist_id (by linarith) (by linarith)
    have hpos : 0 < |x| := abs_pos.mpr hx
    have hlt : |x| < 41.8 := abs_lt.mpr ⟨h1, h2⟩
    refine ⟨_, gerstnerZ_seg tableOK_a 400 50 x 0 (by norm_num)
      (by rw [hf]; norm_num [gerstner_pt_a])
      (Or.inl (by rw [hf]; norm_num [gerstner_pt_a]; linarith)), ?_⟩
    rw [hf]
    have hne : ¬ |x| = (gerstner_pt_a : List ℚ).getD (2 * 0) 0 := by
      norm_num [gerstner_pt_a]
      exact hx
    rw [if_neg hne]
    norm_num [gerstner_pt_a]
    have : 0 ≤ 7 / 5 * |x| / (209 / 5) := by positivity
    linarith

/-- Witness for claim C10. One step to the right of the wrap point. -/
theorem gerstnerZ_jump_at_wrap_witness :
    ((1 : ℚ) ≠ 0 ∧ (-41.8 : ℚ) < 1 ∧ (1 : ℚ) < 41.8) ∧
    ∃ v, gerstnerZ (400 : ℚ) 50 1 gerstner_pt_a = Except.ok v ∧ 1.4 ≤ v :=
  ⟨⟨by norm_num, by norm_num, by norm_num⟩,
    gerstnerZ_jump_at_wrap.2 1 (by norm_num) (by norm_num) (by norm_num)⟩

end GerstnerClaims

/-! ## `normalizeF` on a 3-component vector -/

section NormalizeLemmas

variable {K : Type} [LinearOrderedField K]

theorem set3_at0 {K : Type} (mem : Buf K) (p : Int) (x y z : K) : set3 mem p x y z p = x := by
  simp [set3]

theorem set3_at1 {K : Type} (mem : Buf K) (p : Int) (x y z : K) : set3 mem p x y z (p + 1) = y := by
  simp [set3]

theorem set3_at2 {K : Type} (mem : Buf K) (p : Int) (x y z : K) : set3 mem p x y z (p + 2) = z := by
  simp [set3]

theorem set3_other {K : Type} (mem : Buf K) (p : Int) (x y z : K) (q : Int) (h : q < p ∨ q ≥ p + 3) :
    set3 mem p x y z q = mem q := by
  unfold set3
  rw [if_neg (by omega), if_neg (by omega), if_neg (by omega)]

theorem set3_self {K : Type} (mem : Buf K) (p : Int) : set3 mem p (mem p) (mem (p + 1)) (mem (p + 2)) = mem := by
  funext q
  unfold set3
  split_ifs with h1 h2 h3
  · rw [h1]
  · rw [h2]
  · rw [h3]
  · rfl

theorem set3_set3 {K : Type} (mem : Buf K) (p : Int) (x y z x' y' z' : K) :
    set3 (set3 mem p x y z) p x' y' z' = set3 mem p x' y' z' := by
  funext q
  unfold set3
  split_ifs <;> rfl

theorem scanSmall_step (mem : Buf K) (inp count : Int) (t : Nat) :
    scanSmall mem inp count t =
      if (t : Int) < count ∧ mem (inp + t) < 0.0000001 ∧ mem (inp + t) > -0.0000001 then
        scanSmall mem inp count (t + 1)
      else t := by
  rw [scanSmall]

/-- The scanning loop of `normalizeF` reaches `count = 3` exactly when all
three components are small. -/
theorem scanSmall_three (mem : Buf K) (p : Int) :
    ((scanSmall mem p 3 0 : Nat) : Int) = 3 ↔
      small (mem p) ∧ small (mem (p + 1)) ∧ small (mem (p + 2)) := by
  have e0 : p + ((0 : Nat) : Int) = p := by simp
  have e1 : p + (((0 : Nat) + 1 : Nat) : Int) = p + 1 := by simp
  have e2 : p + (((0 : Nat) + 1 + 1 : Nat) : Int) = p + 2 := by simp
  have s3 : scanSmall mem p 3 (0 + 1 + 1 + 1) = 3 := by
    rw [scanSmall_step, if_neg (by
      intro h
      have := h.1
      norm_num at this)]
  rw [scanSmall_step]
  by_cases h0 : small (mem p)
  · rw [if_pos ⟨by norm_num, by rw [e0]; exact h0.1, by rw [e0]; exact h0.2⟩, scanSmall_step]
    by_cases h1 : small (mem (p + 1))
    · rw [if_pos ⟨by norm_num, by rw [e1]; exact h1.1, by rw [e1]; exact h1.2⟩, scanSmall_step]
      by_cases h2 : small (mem (p + 2))
      · rw [if_pos ⟨by norm_num, by rw [e2]; exact h2.1, by rw [e2]; exact h2.2⟩, s3]
        exact ⟨fun _ => ⟨h0, h1, h2⟩, fun _ => rfl⟩
      · rw [if_neg (by
          intro h
          rw [e2] at h
          exact h2 ⟨h.2.1, h.2.2⟩)]
        exact ⟨fun h => absurd h (by norm_num), fun h => absurd h.2.2 h2⟩
    · rw [if_neg (by
        intro h
        rw [e1] at h
        exact h1 ⟨h.2.1, h.2.2⟩)]
      exact ⟨fun h => absurd h (by norm_num), fun h => absurd h.2.1 h1⟩
  · rw [if_neg (by
      intro h
      rw [e0] at h
      exact h0 ⟨h.2.1, h.2.2⟩)]
    exact ⟨fun h => absurd h (by norm_num), fun h => absurd h.1 h0⟩

theorem sumSquares_three (mem : Buf K) (p : Int) :
    sumSquares mem p 3 0 = mem p * mem p + mem (p + 1) * mem (p + 1) + mem (p + 2) * mem (p + 2) := by
  show (0 + mem (p + ((0 : Nat) : Int)) * mem (p + ((0 : Nat) : Int))
    + mem (p + ((1 : Nat) : Int)) * mem (p + ((1 : Nat) : Int)))
    + mem (p + ((2 : Nat) : Int)) * mem (p + ((2 : Nat) : Int)) = _
  push_cast
  rw [zero_add, add_zero]

theorem scaleIn_three (mem : Buf K) (p : Int) :
    scaleIn mem p 3 =
      set3 mem p (mem p * 10000) (mem (p + 1) * 10000) (mem (p + 2) * 10000) := by
  funext q
  show forLoop 3 (fun t m => Function.update m (p + (t : Int)) (m (p + (t : Int)) * 10000)) mem q
    = _
  simp only [forLoop, Function.update_apply, set3]
  push_cast
  simp only [add_zero]
  have n1 : ¬ p + 1 = p := by omega
  have n2 : ¬ p + 2 = p := by omega
  have n3 : ¬ p + 2 = p + 1 := by omega
  simp only [if_neg n1, if_neg n2, if_neg n3]
  split_ifs <;> first | rfl | omega

theorem divOut_three (mem : Buf K) (p : Int) (l : K) :
    divOut mem p 3 l = set3 mem p (mem p / l) (mem (p + 1) / l) (mem (p + 2) / l) := by
  funext q
  show forLoop 3 (fun t m => Function.update m (p + (t : Int)) (m (p + (t : Int)) / l)) mem q
    = _
  simp only [forLoop, Function.update_apply, set3]
  push_cast
  simp only [add_zero]
  have n1 : ¬ p + 1 = p := by omega
  have n2 : ¬ p + 2 = p := by omega
  have n3 : ¬ p + 2 = p + 1 := by omega
  simp only [if_neg n1, if_neg n2, if_neg n3]
  split_ifs <;> first | rfl | omega

/-- The call `normalizeF(v, v, 3)` on the vector stored at `p`, in closed form. -/
theorem normalizeF_three (sqrt : K → K) (mem : Buf K) (p : Int) :
    normalizeF sqrt mem p p 3 =
      (set3 mem p (normalize3 sqrt (mem p) (mem (p + 1)) (mem (p + 2))).1.1
          (normalize3 sqrt (mem p) (mem (p + 1)) (mem (p + 2))).1.2.1
          (normalize3 sqrt (mem p) (mem (p + 1)) (mem (p + 2))).1.2.2,
        (normalize3 sqrt (mem p) (mem (p + 1)) (mem (p + 2))).2) := by
  unfold normalizeF normalize3
  rw [if_neg (by norm_num)]
  simp only
  by_cases hs : small (mem p) ∧ small (mem (p + 1)) ∧ small (mem (p + 2))
  · rw [if_pos ((scanSmall_three mem p).mpr hs), if_pos hs]
    simp only [set3_self]
  · rw [if_neg (fun h => hs ((scanSmall_three mem p).mp h)), if_neg hs, sumSquares_three]
    by_cases hl : mem p * mem p + mem (p + 1) * mem (p + 1) + mem (p + 2) * mem (p + 2)
        < 0.0000001
    · rw [if_pos hl, if_pos hl]
      simp only
      rw [scaleIn_three, sumSquares_three, divOut_three]
      simp only [set3_at0, set3_at1, set3_at2, set3_set3]
    · rw [if_neg hl, if_neg hl]
      simp only
      rw [divOut_three]

end NormalizeLemmas

/-! ## The normal estimator -/

section NormalLemmas

variable {K : Type} [LinearOrderedField K]

theorem set3_congr {K : Type} (mem : Buf K) (p : Int) {x y z x' y' z' : K} (hx : x = x') (hy : y = y')
    (hz : z = z') : set3 mem p x y z = set3 mem p x' y' z' := by
  rw [hx, hy, hz]

/-- One quad adds its cross product to the three entries at `index`. -/
theorem addCross_set3 (ps pn : Buf K) (index a b : Int) (x y z : K) :
    addCross ps (set3 pn index x y z) index a b =
      set3 pn index (x + (cross ps index a b).1) (y + (cross ps index a b).2.1)
        (z + (cross ps index a b).2.2) := by
  funext q
  unfold addCross cross
  simp only [Function.update_apply, set3]
  have n1 : ¬ index + 1 = index := by omega
  have n2 : ¬ index + 2 = index := by omega
  have n3 : ¬ index + 2 = index + 1 := by omega
  simp only [if_neg n1, if_neg n2, if_neg n3, if_true]
  split_ifs <;> first | rfl | omega

/-- The guarded quads add `quadSum` to the three entries at `index`. -/
theorem accumQuads_eq (cfg : Config K) (ps pn : Buf K) (i j : Nat) (index : Int) :
    accumQuads cfg ps i j index pn =
      set3 pn index (pn index + (quadSum cfg ps i j index).1)
        (pn (index + 1) + (quadSum cfg ps i j index).2.1)
        (pn (index + 2) + (quadSum cfg ps i j index).2.2) := by
  have e : pn = set3 pn index (pn index) (pn (index + 1)) (pn (index + 2)) :=
    (set3_self pn index).symm
  unfold accumQuads quadSum
  simp only
  by_cases h1 : (i : Int) > 0 <;> by_cases h2 : (j : Int) > 0 <;>
    by_cases h3 : (j : Int) < (cfg.STRIP_LENGTH : Int) - 1 <;>
    by_cases h4 : (i : Int) < (cfg.STRIP_COUNT : Int) - 1 <;>
    simp only [h1, h2, h3, h4, if_true, if_false, and_self, and_true, and_false, true_and,
      false_and] <;>
    (first
      | (rw [e, addCross_set3]; simp only [set3_at0, set3_at1, set3_at2, set3_set3,
          addCross_set3]; apply set3_congr <;> ring)
      | (nth_rewrite 1 [e]; apply set3_congr <;> ring))

end NormalLemmas

section NormalStageLemmas

variable {K : Type} [LinearOrderedField K]

theorem normalBody_eq (cfg : Config K) (ps : Buf K) (i j : Nat)
    (st : Int × Buf K × List (Int × Int)) :
    (normalBody cfg ps i j st).1 = st.1 + 3 ∧
    (normalBody cfg ps i j st).2.1 =
      set3 st.2.1 st.1
        (normalize3 cfg.sqrt (st.2.1 st.1 + (quadSum cfg ps i j st.1).1)
          (st.2.1 (st.1 + 1) + (quadSum cfg ps i j st.1).2.1)
          (st.2.1 (st.1 + 2) + (quadSum cfg ps i j st.1).2.2)).1.1
        (normalize3 cfg.sqrt (st.2.1 st.1 + (quadSum cfg ps i j st.1).1)
          (st.2.1 (st.1 + 1) + (quadSum cfg ps i j st.1).2.1)
          (st.2.1 (st.1 + 2) + (quadSum cfg ps i j st.1).2.2)).1.2.1
        (normalize3 cfg.sqrt (st.2.1 st.1 + (quadSum cfg ps i j st.1).1)
          (st.2.1 (st.1 + 1) + (quadSum cfg ps i j st.1).2.1)
          (st.2.1 (st.1 + 2) + (quadSum cfg ps i j st.1).2.2)).1.2.2 := by
  refine ⟨rfl, ?_⟩
  show (normalizeF cfg.sqrt (accumQuads cfg ps i j st.1 st.2.1) st.1 st.1 3).1 = _
  rw [accumQuads_eq, normalizeF_three]
  simp only [set3_at0, set3_at1, set3_at2, set3_set3]

/-- The normal estimator leaves at every grid point `(i, j)` the vector
`pointNormal`, computed from the positions and from the three entries that
`pt_normal` held for that point before the stage, and writes nothing outside
`[0, STRIP_COUNT*STRIP_LENGTH*3)`. -/
theorem normalStage_spec (cfg : Config K) (ps pn : Buf K) (log : List (Int × Int)) :
    (∀ i j : Nat, i < cfg.STRIP_COUNT → j < cfg.STRIP_LENGTH →
      (normalStage cfg ps pn log).1 (gridIndex cfg.STRIP_LENGTH i j)
        = (pointNormal cfg ps pn i j).1.1 ∧
      (normalStage cfg ps pn log).1 (gridIndex cfg.STRIP_LENGTH i j + 1)
        = (pointNormal cfg ps pn i j).1.2.1 ∧
      (normalStage cfg ps pn log).1 (gridIndex cfg.STRIP_LENGTH i j + 2)
        = (pointNormal cfg ps pn i j).1.2.2) ∧
    (∀ q : Int, (q < 0 ∨ q ≥ 3 * ((cfg.STRIP_COUNT * cfg.STRIP_LENGTH : Nat) : Int)) →
      (normalStage cfg ps pn log).1 q = pn q) := by
  have key := forLoop_nested_inv
    (fun n (t : Int × Buf K × List (Int × Int)) =>
      t.1 = 3 * (n : Int) ∧
      (∀ i j : Nat, j < cfg.STRIP_LENGTH → i * cfg.STRIP_LENGTH + j < n →
        t.2.1 (gridIndex cfg.STRIP_LENGTH i j) = (pointNormal cfg ps pn i j).1.1 ∧
        t.2.1 (gridIndex cfg.STRIP_LENGTH i j + 1) = (pointNormal cfg ps pn i j).1.2.1 ∧
        t.2.1 (gridIndex cfg.STRIP_LENGTH i j + 2) = (pointNormal cfg ps pn i j).1.2.2) ∧
      (∀ q : Int, (q < 0 ∨ q ≥ 3 * (n : Int)) → t.2.1 q = pn q))
    (fun i j st => normalBody cfg ps i j st) ((0 : Int), pn, log) cfg.STRIP_COUNT
    cfg.STRIP_LENGTH
    ⟨by simp, fun i j _ h => absurd h (Nat.not_lt_zero _), fun q _ => rfl⟩
    (by
      intro i j _ hj t ht
      obtain ⟨h1, h2, h3⟩ := ht
      obtain ⟨b1, b2⟩ := normalBody_eq cfg ps i j t
      have eI : t.1 = gridIndex cfg.STRIP_LENGTH i j := by
        rw [h1]; unfold gridIndex; ring
      have f0 : t.2.1 t.1 = pn t.1 := h3 _ (Or.inr (by omega))
      have f1 : t.2.1 (t.1 + 1) = pn (t.1 + 1) := h3 _ (Or.inr (by omega))
      have f2 : t.2.1 (t.1 + 2) = pn (t.1 + 2) := h3 _ (Or.inr (by omega))
      rw [f0, f1, f2, eI] at b2
      refine ⟨by rw [b1, h1]; push_cast; ring, ?_, ?_⟩
      · intro c l hl hlt
        rcases Nat.lt_or_ge (c * cfg.STRIP_LENGTH + l) (i * cfg.STRIP_LENGTH + j) with h | h
        · have hq : ∀ k : Int, 0 ≤ k → k < 3 →
              (normalBody cfg ps i j t).2.1 (gridIndex cfg.STRIP_LENGTH c l + k)
                = t.2.1 (gridIndex cfg.STRIP_LENGTH c l + k) := by
            intro k hk0 hk3
            rw [b2]
            apply set3_other
            left
            unfold gridIndex
            omega
          have q0 := hq 0 (by omega) (by omega)
          rw [add_zero] at q0
          rw [q0, hq 1 (by omega) (by omega), hq 2 (by omega) (by omega)]
          exact h2 c l hl h
        · have e1 : c * cfg.STRIP_LENGTH + l = i * cfg.STRIP_LENGTH + j := by omega
          obtain ⟨e2, e3⟩ := flat_index_unique hl hj e1
          subst e2 e3
          rw [b2]
          exact ⟨set3_at0 _ _ _ _ _, set3_at1 _ _ _ _ _, set3_at2 _ _ _ _ _⟩
      · intro q hq
        rw [b2, set3_other _ _ _ _ _ _ (by unfold gridIndex; omega)]
        exact h3 q (by omega))
  obtain ⟨-, k1, k2⟩ := key
  refine ⟨fun i j hi hj => ?_, fun q hq => ?_⟩
  · exact k1 i j hj (flat_index_lt hi hj)
  · exact k2 q hq

end NormalStageLemmas

/-! ## Claims on `normalizeF` -/

section NormalizeClaims

variable {K : Type} [LinearOrderedField K]

/-- With an exact square root, `normalizeF(v, v, 3)` succeeds and leaves a
vector of squared length 1 whenever some component passes the threshold. -/
theorem normalize3_unit (sqrt : K → K) (hs : ∀ y, 0 < y → sqrt y * sqrt y = y) (a b c : K)
    (h : ¬ (small a ∧ small b ∧ small c)) :
    (normalize3 sqrt a b c).2 = 0 ∧
    (normalize3 sqrt a b c).1.1 * (normalize3 sqrt a b c).1.1
      + (normalize3 sqrt a b c).1.2.1 * (normalize3 sqrt a b c).1.2.1
      + (normalize3 sqrt a b c).1.2.2 * (normalize3 sqrt a b c).1.2.2 = 1 := by
  have hne : a ≠ 0 ∨ b ≠ 0 ∨ c ≠ 0 := by
    by_contra hc
    push_neg at hc
    obtain ⟨ha, hb, hc⟩ := hc
    apply h
    rw [ha, hb, hc]
    exact ⟨⟨by norm_num, by norm_num⟩, ⟨by norm_num, by norm_num⟩, ⟨by norm_num, by norm_num⟩⟩
  have hl : 0 < a * a + b * b + c * c := by
    rcases hne with h1 | h1 | h1
    · have := mul_self_pos.mpr h1
      nlinarith [mul_self_nonneg b, mul_self_nonneg c]
    · have := mul_self_pos.mpr h1
      nlinarith [mul_self_nonneg a, mul_self_nonneg c]
    · have := mul_self_pos.mpr h1
      nlinarith [mul_self_nonneg a, mul_self_nonneg b]
  unfold normalize3
  rw [if_neg h]
  by_cases h2 : a * a + b * b + c * c < 0.0000001
  · rw [if_pos h2]
    refine ⟨rfl, ?_⟩
    simp only
    have hl' : 0 < a * 10000 * (a * 10000) + b * 10000 * (b * 10000) + c * 10000 * (c * 10000) := by
      nlinarith
    have e := hs _ hl'
    generalize sqrt (a * 10000 * (a * 10000) + b * 10000 * (b * 10000) + c * 10000 * (c * 10000))
      = r at e
    have hr : r ≠ 0 := by
      intro h0
      rw [h0] at e
      simp at e
      linarith
    field_simp
    linarith
  · rw [if_neg h2]
    refine ⟨rfl, ?_⟩
    simp only
    have e := hs _ hl
    generalize sqrt (a * a + b * b + c * c) = r at e
    have hr : r ≠ 0 := by
      intro h0
      rw [h0] at e
      simp at e
      linarith
    field_simp
    linarith

/-- Counterexample to claim C5 as stated. The vector `(0.00000001, 0, 0)` is not zero, yet
`normalizeF(v, v, 3)` over the reals returns the failure code 1 and leaves it
as it is, with length different from 1. -/
theorem normalizeF_tiny_vector_not_normalized :
    ¬ ((tinyVector : Buf ℝ) 0 = 0 ∧ (tinyVector : Buf ℝ) 1 = 0 ∧ (tinyVector : Buf ℝ) 2 = 0) ∧
    normalizeF Real.sqrt (tinyVector : Buf ℝ) 0 0 3 = (tinyVector, 1) ∧
    Real.sqrt ((normalizeF Real.sqrt (tinyVector : Buf ℝ) 0 0 3).1 0 ^ 2
      + (normalizeF Real.sqrt (tinyVector : Buf ℝ) 0 0 3).1 1 ^ 2
      + (normalizeF Real.sqrt (tinyVector : Buf ℝ) 0 0 3).1 2 ^ 2) ≠ 1 := by
  have v0 : (tinyVector : Buf ℝ) 0 = 0.00000001 := by simp [tinyVector]
  have v1 : (tinyVector : Buf ℝ) (0 + 1) = 0 := by simp [tinyVector]
  have v2 : (tinyVector : Buf ℝ) (0 + 2) = 0 := by simp [tinyVector]
  have hsm : small ((tinyVector : Buf ℝ) 0) ∧ small ((tinyVector : Buf ℝ) (0 + 1)) ∧
      small ((tinyVector : Buf ℝ) (0 + 2)) := by
    rw [v0, v1, v2]
    exact ⟨⟨by norm_num, by norm_num⟩, ⟨by norm_num, by norm_num⟩, ⟨by norm_num, by norm_num⟩⟩
  have e : normalizeF Real.sqrt (tinyVector : Buf ℝ) 0 0 3 = (tinyVector, 1) := by
    rw [normalizeF_three]
    unfold normalize3
    rw [if_pos hsm]
    simp only [set3_self]
  refine ⟨?_, e, ?_⟩
  · intro h
    rw [v0] at h
    norm_num at h
  · rw [e]
    simp only
    have w1 : (tinyVector : Buf ℝ) 1 = 0 := v1
    have w2 : (tinyVector : Buf ℝ) 2 = 0 := v2
    rw [v0, w1, w2]
    intro h
    rw [Real.sqrt_eq_one] at h
    norm_num at h

/-- Claim C5, amended. Over the reals, for every 3-component vector with at least
one component of absolute value `≥ 0.0000001`, `normalizeF(v, v, 3)` returns 0
and leaves `v` with Euclidean length 1. -/
theorem normalizeF_unit_length (mem : Buf ℝ) (p : Int)
    (h : 0.0000001 ≤ |mem p| ∨ 0.0000001 ≤ |mem (p + 1)| ∨ 0.0000001 ≤ |mem (p + 2)|) :
    (normalizeF Real.sqrt mem p p 3).2 = 0 ∧
    Real.sqrt ((normalizeF Real.sqrt mem p p 3).1 p ^ 2
      + (normalizeF Real.sqrt mem p p 3).1 (p + 1) ^ 2
      + (normalizeF Real.sqrt mem p p 3).1 (p + 2) ^ 2) = 1 := by
  have hns : ¬ (small (mem p) ∧ small (mem (p + 1)) ∧ small (mem (p + 2))) := by
    intro hs
    have key : ∀ v : ℝ, small v → ¬ (0.0000001 ≤ |v|) := by
      intro v hv hle
      have : |v| < 0.0000001 := abs_lt.mpr ⟨hv.2, hv.1⟩
      linarith
    rcases h with h | h | h
    · exact key _ hs.1 h
    · exact key _ hs.2.1 h
    · exact key _ hs.2.2 h
  obtain ⟨h1, h2⟩ := normalize3_unit Real.sqrt (fun y hy => Real.mul_self_sqrt (le_of_lt hy))
    (mem p) (mem (p + 1)) (mem (p + 2)) hns
  rw [normalizeF_three]
  simp only [set3_at0, set3_at1, set3_at2]
  refine ⟨h1, ?_⟩
  rw [Real.sqrt_eq_one]
  rw [← h2]
  ring

/-- Witness for claim C5. The vector `(3, 4, 0)` stored at offset 0. -/
theorem normalizeF_unit_length_witness :
    ((0.0000001 : ℝ) ≤ |(3 : ℝ)|) ∧
    (normalizeF Real.sqrt (set3 (fun _ => (0 : ℝ)) 0 3 4 0) 0 0 3).2 = 0 ∧
    Real.sqrt ((normalizeF Real.sqrt (set3 (fun _ => (0 : ℝ)) 0 3 4 0) 0 0 3).1 0 ^ 2
      + (normalizeF Real.sqrt (set3 (fun _ => (0 : ℝ)) 0 3 4 0) 0 0 3).1 (0 + 1) ^ 2
      + (normalizeF Real.sqrt (set3 (fun _ => (0 : ℝ)) 0 3 4 0) 0 0 3).1 (0 + 2) ^ 2) = 1 := by
  have h3 : (0.0000001 : ℝ) ≤ |(3 : ℝ)| := by
    rw [abs_of_pos (by norm_num)]
    norm_num
  exact ⟨h3, normalizeF_unit_length (set3 (fun _ => (0 : ℝ)) 0 3 4 0) 0
    (Or.inl (by rw [set3_at0]; exact h3))⟩

end NormalizeClaims

/-! ## `initWave` -/

section InitLemmas

variable {K : Type} [LinearOrderedField K]

/-- The function `initWave` stores the lattice coordinates of every grid point and leaves
every other entry of `pt_strip` (the `z` entries among them) as it was. -/
theorem initWave_strip_spec (cfg : Config K) (s : State K) :
    (∀ i j : Nat, i < cfg.STRIP_COUNT → j < cfg.STRIP_LENGTH →
      (initWave cfg s).pt_strip (gridIndex cfg.STRIP_LENGTH i j)
        = cfg.START_X + (i : K) * cfg.LENGTH_X ∧
      (initWave cfg s).pt_strip (gridIndex cfg.STRIP_LENGTH i j + 1)
        = cfg.START_Y + (j : K) * cfg.LENGTH_Y) ∧
    (∀ q : Int, (∀ m : Nat, m < cfg.STRIP_COUNT * cfg.STRIP_LENGTH →
        q ≠ 3 * (m : Int) ∧ q ≠ 3 * (m : Int) + 1) →
      (initWave cfg s).pt_strip q = s.pt_strip q) := by
  have key := forLoop_nested_inv
    (fun n (t : Int × Buf K) =>
      t.1 = 3 * (n : Int) ∧
      (∀ i j : Nat, j < cfg.STRIP_LENGTH → i * cfg.STRIP_LENGTH + j < n →
        t.2 (gridIndex cfg.STRIP_LENGTH i j) = cfg.START_X + (i : K) * cfg.LENGTH_X ∧
        t.2 (gridIndex cfg.STRIP_LENGTH i j + 1) = cfg.START_Y + (j : K) * cfg.LENGTH_Y) ∧
      (∀ q : Int, (∀ m : Nat, m < n → q ≠ 3 * (m : Int) ∧ q ≠ 3 * (m : Int) + 1) →
        t.2 q = s.pt_strip q))
    (fun i j st => initStripBody cfg i j st) ((0 : Int), s.pt_strip) cfg.STRIP_COUNT
    cfg.STRIP_LENGTH
    ⟨by simp, fun i j _ h => absurd h (Nat.not_lt_zero _), fun q _ => rfl⟩
    (by
      intro i j _ hj t ht
      obtain ⟨h1, h2, h3⟩ := ht
      have eI : t.1 = gridIndex cfg.STRIP_LENGTH i j := by
        rw [h1]; unfold gridIndex; ring
      have b : (initStripBody cfg i j t).2 =
          Function.update (Function.update t.2 t.1 (cfg.START_X + (i : K) * cfg.LENGTH_X))
            (t.1 + 1) (cfg.START_Y + (j : K) * cfg.LENGTH_Y) := rfl
      refine ⟨by show t.1 + 3 = _; rw [h1]; push_cast; ring, ?_, ?_⟩
      · intro c l hl hlt
        rw [b]
        rcases Nat.lt_or_ge (c * cfg.STRIP_LENGTH + l) (i * cfg.STRIP_LENGTH + j) with h | h
        · have n1 : gridIndex cfg.STRIP_LENGTH c l ≠ t.1 + 1 := by
            rw [h1]; unfold gridIndex; omega
          have n2 : gridIndex cfg.STRIP_LENGTH c l ≠ t.1 := by
            rw [h1]; unfold gridIndex; omega
          have n3 : gridIndex cfg.STRIP_LENGTH c l + 1 ≠ t.1 + 1 := by
            rw [h1]; unfold gridIndex; omega
          have n4 : gridIndex cfg.STRIP_LENGTH c l + 1 ≠ t.1 := by
            rw [h1]; unfold gridIndex; omega
          rw [Function.update_noteq n1, Function.update_noteq n2, Function.update_noteq n3,
            Function.update_noteq n4]
          exact h2 c l hl h
        · have e1 : c * cfg.STRIP_LENGTH + l = i * cfg.STRIP_LENGTH + j := by omega
          obtain ⟨e2, e3⟩ := flat_index_unique hl hj e1
          subst e2 e3
          rw [← eI]
          have n1 : t.1 ≠ t.1 + 1 := by omega
          rw [Function.update_noteq n1, Function.update_same, Function.update_same]
          exact ⟨rfl, rfl⟩
      · intro q hq
        rw [b]
        have hn := hq (i * cfg.STRIP_LENGTH + j) (Nat.lt_succ_self _)
        rw [Function.update_noteq (by rw [h1]; exact hn.2),
          Function.update_noteq (by rw [h1]; exact hn.1)]
        exact h3 q (fun m hm => hq m (Nat.lt_succ_of_lt hm)))
  obtain ⟨-, k1, k2⟩ := key
  refine ⟨fun i j hi hj => ?_, fun q hq => ?_⟩
  · exact k1 i j hj (flat_index_lt hi hj)
  · exact k2 q hq

/-- The function `initWave` copies the wave bank from `wave_para`. -/
theorem initWave_values_spec (cfg : Config K) (s : State K) :
    (initWave cfg s).values.time = 0 ∧
    ∀ w : Nat, w < cfg.WAVE_COUNT →
      (initWave cfg s).values.wave_length w = cfg.wave_para w 0 ∧
      (initWave cfg s).values.wave_height w = cfg.wave_para w 1 ∧
      (initWave cfg s).values.wave_dir w = cfg.wave_para w 2 ∧
      (initWave cfg s).values.wave_speed w = cfg.wave_para w 3 ∧
      (initWave cfg s).values.wave_start (w * 2) = cfg.wave_para w 4 ∧
      (initWave cfg s).values.wave_start (w * 2 + 1) = cfg.wave_para w 5 := by
  have key := forLoop_inv
    (fun n (v : Values K) =>
      v.time = 0 ∧
      ∀ w : Nat, w < n →
        v.wave_length w = cfg.wave_para w 0 ∧ v.wave_height w = cfg.wave_para w 1 ∧
        v.wave_dir w = cfg.wave_para w 2 ∧ v.wave_speed w = cfg.wave_para w 3 ∧
        v.wave_start (w * 2) = cfg.wave_para w 4 ∧
        v.wave_start (w * 2 + 1) = cfg.wave_para w 5)
    (initValuesBody cfg) { s.values with time := 0 } cfg.WAVE_COUNT
    ⟨rfl, fun w h => absurd h (Nat.not_lt_zero _)⟩
    (by
      intro i _ v hv
      obtain ⟨h0, h1⟩ := hv
      refine ⟨h0, ?_⟩
      intro w hw
      unfold initValuesBody
      simp only [Function.update_apply]
      rcases Nat.lt_or_ge w i with h | h
      · obtain ⟨a1, a2, a3, a4, a5, a6⟩ := h1 w h
        have n0 : ¬ w = i := by omega
        have n1 : ¬ w * 2 = i * 2 + 1 := by omega
        have n2 : ¬ w * 2 = i * 2 := by omega
        have n3 : ¬ w * 2 + 1 = i * 2 + 1 := by omega
        have n4 : ¬ w * 2 + 1 = i * 2 := by omega
        simp only [n0, n1, n2, n3, n4, if_false]
        exact ⟨a1, a2, a3, a4, a5, a6⟩
      · have e : w = i := by omega
        subst e
        rw [if_pos rfl, if_pos rfl, if_pos rfl, if_pos rfl, if_neg (by omega), if_pos rfl,
          if_pos rfl]
        exact ⟨rfl, rfl, rfl, rfl, rfl, rfl⟩)
  exact key

end InitLemmas

/-! ## Waves of amplitude 0 -/

section FlatLemmas

variable {K : Type} [LinearOrderedField K]

/-- A wave of amplitude 0 contributes height 0. -/
theorem gerstnerZ_zero_height [FloorRing K] {g : List K} (hg : TableOK g) (L x : K) :
    gerstnerZ L 0 x g = Except.ok 0 := by
  have hx0 : g.getD (2 * 0) 0 ≤ foldDist L x := by
    rw [Nat.mul_zero, hg.first]
    exact (foldDist_range L x).1
  obtain ⟨j, -, -, hj, h3, h4⟩ := searchLoop_spec hg.len (foldDist L x) 9 0 rfl (by omega) hx0
  have h2 : foldDist L x < g.getD (2 * j + 2) 0 ∨ j = 9 := by
    rcases Nat.lt_or_ge j 9 with h5 | h5
    · exact Or.inl (h4 h5)
    · exact Or.inr (by omega)
  rw [gerstnerZ_seg hg L 0 x j hj h3 h2]
  split_ifs <;> simp

theorem waveSum_zero [FloorRing K] (cfg : Config K) (v : Values K) (px py : K)
    (h : ∀ w, w < cfg.WAVE_COUNT → v.wave_height w = 0) : waveSum cfg v px py = 0 := by
  unfold waveSum
  apply Finset.sum_eq_zero
  intro w hw
  have hw' : w < cfg.WAVE_COUNT := Finset.mem_range.mp hw
  rw [h w hw']
  unfold gerstnerZ_val
  rw [gerstnerZ_zero_height (waveTable_ok cfg w)]
  simp

end FlatLemmas

/-! ## Claim on the normals across frames -/

section NormalClaims

/-- Positions of the flat test surface after the height stage, for any state
that holds the lattice and the wave bank of `initWave`. -/
theorem flat_positions (s : State ℚ)
    (hv : s.values = (initWave flatConfig zeroState).values)
    (hp : s.pt_strip = (initWave flatConfig zeroState).pt_strip) :
    ∃ ps, heightStage flatConfig s.values s.pt_strip = Except.ok ps ∧
      ps 0 = 0 ∧ ps 1 = 0 ∧ ps 2 = 0 ∧ ps 3 = 0 ∧ ps 4 = 1 ∧ ps 5 = 0 ∧
      ps 6 = 1 ∧ ps 7 = 0 ∧ ps 8 = 0 := by
  obtain ⟨ps, e, h1, h2⟩ := heightStage_spec flatConfig s.values s.pt_strip
  have hz : ∀ px py, waveSum flatConfig s.values px py = 0 := by
    intro px py
    apply waveSum_zero
    intro w hw
    rw [hv]
    have hw0 : w = 0 := by
      have : w < 1 := hw
      omega
    subst hw0
    have := ((initWave_values_spec flatConfig zeroState).2 0 (by decide)).2.1
    rw [this]
    norm_num [flatConfig]
  have z : ∀ m : Nat, m < 4 → ps (3 * (m : Int) + 2) = 0 := by
    intro m hm
    rw [h1 m hm, hz]
    norm_num [flatConfig]
  have xy : ∀ q : Int, (∀ m : Nat, m < 4 → q ≠ 3 * (m : Int) + 2) →
      ps q = (initWave flatConfig zeroState).pt_strip q := by
    intro q hq
    rw [h2 q hq, hp]
  have i00 := (initWave_strip_spec flatConfig zeroState).1 0 0 (by decide) (by decide)
  have i01 := (initWave_strip_spec flatConfig zeroState).1 0 1 (by decide) (by decide)
  have i10 := (initWave_strip_spec flatConfig zeroState).1 1 0 (by decide) (by decide)
  have a0 : (initWave flatConfig zeroState).pt_strip 0 = 0 := by
    have := i00.1
    norm_num [gridIndex, flatConfig] at this
    exact this
  have a1 : (initWave flatConfig zeroState).pt_strip 1 = 0 := by
    have := i00.2
    norm_num [gridIndex, flatConfig] at this
    exact this
  have a3 : (initWave flatConfig zeroState).pt_strip 3 = 0 := by
    have := i01.1
    norm_num [gridIndex, flatConfig] at this
    exact this
  have a4 : (initWave flatConfig zeroState).pt_strip 4 = 1 := by
    have := i01.2
    norm_num [gridIndex, flatConfig] at this
    exact this
  have a6 : (initWave flatConfig zeroState).pt_strip 6 = 1 := by
    have := i10.1
    norm_num [gridIndex, flatConfig] at this
    exact this
  have a7 : (initWave flatConfig zeroState).pt_strip 7 = 0 := by
    have := i10.2
    norm_num [gridIndex, flatConfig] at this
    exact this
  refine ⟨ps, e, ?_, ?_, z 0 (by omega), ?_, ?_, z 1 (by omega), ?_, ?_, z 2 (by omega)⟩
  · rw [xy 0 (fun m _ => by omega)]; exact a0
  · rw [xy 1 (fun m _ => by omega)]; exact a1
  · rw [xy 3 (fun m _ => by omega)]; exact a3
  · rw [xy 4 (fun m _ => by omega)]; exact a4
  · rw [xy 6 (fun m _ => by omega)]; exact a6
  · rw [xy 7 (fun m _ => by omega)]; exact a7

end NormalClaims

section NormalClaims2

theorem flat_quadSum (ps : Buf ℚ) (h0 : ps 0 = 0) (h1 : ps 1 = 0) (h2 : ps 2 = 0)
    (h3 : ps 3 = 0) (h4 : ps 4 = 1) (h5 : ps 5 = 0) (h6 : ps 6 = 1) (h7 : ps 7 = 0)
    (h8 : ps 8 = 0) : quadSum flatConfig ps 0 0 (gridIndex flatConfig.STRIP_LENGTH 0 0) = (0, 0, 1) := by
  have e : gridIndex flatConfig.STRIP_LENGTH 0 0 = 0 := rfl
  rw [e]
  unfold quadSum cross
  norm_num [flatConfig, h0, h1, h2, h3, h4, h5, h6, h7, h8]

theorem flat_normal_fresh : normalize3 Rat.sqrt (0 + 0) (0 + 0) (0 + 1) = ((0, 0, 1), 0) := by
  have hs : Rat.sqrt 1 = 1 := by
    have := Rat.sqrt_eq 1
    rw [mul_one, abs_one] at this
    exact this
  unfold normalize3 small
  norm_num [hs]

theorem flat_normal_later :
    normalize3 Rat.sqrt (24 / 25 + 0) (0 + 0) (7 / 25 + 1) = ((3 / 5, 0, 4 / 5), 0) := by
  have hs : Rat.sqrt (64 / 25) = 8 / 5 := by
    have := Rat.sqrt_eq (8 / 5)
    rw [abs_of_pos (by norm_num)] at this
    rw [← this]
    norm_num
  unfold normalize3 small
  norm_num [hs]

/-- The normal `calcuWave` leaves at grid point (0,0) of the flat test surface,
in terms of what `pt_normal` held there before the call. -/
theorem flat_calcuWave (s : State ℚ)
    (hv : s.values = (initWave flatConfig zeroState).values)
    (hp : s.pt_strip = (initWave flatConfig zeroState).pt_strip) :
    ∃ s', calcuWave flatConfig s = Except.ok s' ∧
      (s'.pt_strip 0 = 0 ∧ s'.pt_strip 1 = 0 ∧ s'.pt_strip 2 = 0) ∧
      (s'.pt_strip 3 = 0 ∧ s'.pt_strip 4 = 1 ∧ s'.pt_strip 5 = 0) ∧
      (s'.pt_strip 6 = 1 ∧ s'.pt_strip 7 = 0 ∧ s'.pt_strip 8 = 0) ∧
      s'.pt_normal 0 = (normalize3 Rat.sqrt (s.pt_normal 0 + 0) (s.pt_normal 1 + 0)
        (s.pt_normal 2 + 1)).1.1 ∧
      s'.pt_normal 1 = (normalize3 Rat.sqrt (s.pt_normal 0 + 0) (s.pt_normal 1 + 0)
        (s.pt_normal 2 + 1)).1.2.1 ∧
      s'.pt_normal 2 = (normalize3 Rat.sqrt (s.pt_normal 0 + 0) (s.pt_normal 1 + 0)
        (s.pt_normal 2 + 1)).1.2.2 := by
  obtain ⟨ps, e, h0, h1, h2, h3, h4, h5, h6, h7, h8⟩ := flat_positions s hv hp
  obtain ⟨ps', e', hc⟩ := calcuWave_eq flatConfig s
  have eps : ps' = ps := by
    rw [e] at e'
    exact (Except.ok.inj e').symm
  rw [eps] at hc
  refine ⟨_, hc, ⟨h0, h1, h2⟩, ⟨h3, h4, h5⟩, ⟨h6, h7, h8⟩, ?_⟩
  have hn := (normalStage_spec flatConfig ps s.pt_normal s.log).1 0 0 (by decide) (by decide)
  unfold pointNormal at hn
  rw [flat_quadSum ps h0 h1 h2 h3 h4 h5 h6 h7 h8] at hn
  exact hn

/-- Dependence of the stored normal on what `pt_normal` held before the call. On the flat test surface (grid
points (0,0), (0,1), (1,0) at `(0,0,0)`, `(0,1,0)`, `(1,0,0)`, so that the one
quad of corner (0,0) has cross product `(0,0,1)`), the first frame stores the
normal `(0,0,1)` at grid point (0,0); a later frame that finds there the unit
normal `(24/25, 0, 7/25)` of an earlier frame stores `(3/5, 0, 4/5)` for the
same positions: the code normalises old normal plus cross products. -/
theorem calcuWave_normal_keeps_previous_frame :
    (∃ s', calcuWave flatConfig (initWave flatConfig zeroState) = Except.ok s' ∧
      (s'.pt_strip 0 = 0 ∧ s'.pt_strip 1 = 0 ∧ s'.pt_strip 2 = 0) ∧
      (s'.pt_strip 3 = 0 ∧ s'.pt_strip 4 = 1 ∧ s'.pt_strip 5 = 0) ∧
      (s'.pt_strip 6 = 1 ∧ s'.pt_strip 7 = 0 ∧ s'.pt_strip 8 = 0) ∧
      s'.pt_normal 0 = 0 ∧ s'.pt_normal 1 = 0 ∧ s'.pt_normal 2 = 1) ∧
    (∃ s', calcuWave flatConfig laterFrameState = Except.ok s' ∧
      (s'.pt_strip 0 = 0 ∧ s'.pt_strip 1 = 0 ∧ s'.pt_strip 2 = 0) ∧
      (s'.pt_strip 3 = 0 ∧ s'.pt_strip 4 = 1 ∧ s'.pt_strip 5 = 0) ∧
      (s'.pt_strip 6 = 1 ∧ s'.pt_strip 7 = 0 ∧ s'.pt_strip 8 = 0) ∧
      s'.pt_normal 0 = 3 / 5 ∧ s'.pt_normal 1 = 0 ∧ s'.pt_normal 2 = 4 / 5) := by
  constructor
  · obtain ⟨s', h, p0, p1, p2, n0, n1, n2⟩ :=
      flat_calcuWave (initWave flatConfig zeroState) rfl rfl
    refine ⟨s', h, p0, p1, p2, ?_⟩
    have z : ∀ q, (initWave flatConfig zeroState).pt_normal q = 0 := fun _ => rfl
    rw [z, z, z, flat_normal_fresh] at n0 n1 n2
    exact ⟨n0, n1, n2⟩
  · obtain ⟨s', h, p0, p1, p2, n0, n1, n2⟩ := flat_calcuWave laterFrameState rfl rfl
    refine ⟨s', h, p0, p1, p2, ?_⟩
    have z0 : laterFrameState.pt_normal 0 = 24 / 25 :=
      set3_at0 (fun _ => (0 : ℚ)) 0 (24 / 25) 0 (7 / 25)
    have z1 : laterFrameState.pt_normal 1 = 0 :=
      set3_at1 (fun _ => (0 : ℚ)) 0 (24 / 25) 0 (7 / 25)
    have z2 : laterFrameState.pt_normal 2 = 7 / 25 :=
      set3_at2 (fun _ => (0 : ℚ)) 0 (24 / 25) 0 (7 / 25)
    rw [z0, z1, z2, flat_normal_later] at n0 n1 n2
    exact ⟨n0, n1, n2⟩

end NormalClaims2

/-! ## Two frames on a surface whose slope changes -/

section TwoFrames

/-- On table B, strictly inside the first segment, `gerstnerZ` returns
`(1.4 * f / 27.7 + 1.4) * h / 50` at folded distance `f`. -/
theorem gerstnerZ_val_first_segment (L h x f : ℚ) (hf : foldDist L x = f) (h0 : 0 < f)
    (h1 : f < 27.7) :
    gerstnerZ_val L h x gerstner_pt_b = (1.4 * f / 27.7 + 1.4) * (h / 50) := by
  unfold gerstnerZ_val
  rw [gerstnerZ_seg tableOK_b L h x 0 (by norm_num)
    (by rw [hf]; norm_num [gerstner_pt_b]; exact le_of_lt h0)
    (Or.inl (by rw [hf]; norm_num [gerstner_pt_b]; linarith))]
  rw [hf]
  have hne : ¬ f = (gerstner_pt_b : List ℚ).getD (2 * 0) 0 := by
    norm_num [gerstner_pt_b]
    exact ne_of_gt h0
  rw [if_neg hne]
  norm_num [gerstner_pt_b]

/-- The wave sum of the sloped test surface at time `t`, at a point of
abscissa `px` whose folded distance `f` lies inside the first segment. -/
theorem slope_waveSum (v : Values ℚ) (t px py f : ℚ)
    (hv : v = { (initWave slopeConfig zeroState).values with time := t })
    (hf : foldDist 20 (px + 5 * t) = f) (h0 : 0 < f) (h1 : f < 27.7) :
    waveSum slopeConfig v px py = 4155 / 28 - (1.4 * f / 27.7 + 1.4) * (4155 / 28 / 50) := by
  obtain ⟨-, hw⟩ := initWave_values_spec slopeConfig zeroState
  obtain ⟨w1, w2, w3, w4, w5, w6⟩ := hw 0 (by decide)
  have e1 : v.wave_length 0 = 20 := by rw [hv]; exact w1
  have e2 : v.wave_height 0 = 4155 / 28 := by rw [hv]; exact w2
  have e3 : v.wave_dir 0 = 0 := by
    rw [hv]
    show (initWave slopeConfig zeroState).values.wave_dir 0 = 0
    rw [w3]
    norm_num [slopeConfig]
  have e4 : v.wave_speed 0 = 5 := by rw [hv]; exact w4
  have e5 : v.wave_start (0 * 2) = 0 := by
    rw [hv]
    show (initWave slopeConfig zeroState).values.wave_start (0 * 2) = 0
    rw [w5]
    norm_num [slopeConfig]
  have e6 : v.wave_start (0 * 2 + 1) = 0 := by
    rw [hv]
    show (initWave slopeConfig zeroState).values.wave_start (0 * 2 + 1) = 0
    rw [w6]
    norm_num [slopeConfig]
  have e7 : v.time = t := by rw [hv]
  have ea : lookupArg slopeConfig v px py 0 = px + 5 * t := by
    unfold lookupArg
    simp only [e3, e4, e5, e6, e7]
    norm_num [slopeConfig]
  have et : waveTable slopeConfig 0 = gerstner_pt_b := by
    unfold waveTable
    rw [if_neg (by norm_num [slopeConfig])]
  unfold waveSum
  show ∑ w in Finset.range 1, _ = _
  rw [Finset.sum_range_one, e1, e2, ea, et, gerstnerZ_val_first_segment 20 _ _ f hf h0 h1]

/-- One frame on the sloped test surface: the state keeps the wave bank and
the lattice, the heights of grid points (0,0), (0,1), (1,0) follow from the
folded distances `f0` (rows 0) and `f1` (row 1), and the normal of grid point
(0,0) is `normalizeF` of the old normal plus the cross product of its quad. -/
theorem slope_frame (s : State ℚ) (t f0 f1 : ℚ)
    (hv : s.values = { (initWave slopeConfig zeroState).values with time := t })
    (hp : ∀ q : Int, (q = 0 ∨ q = 1 ∨ q = 3 ∨ q = 4 ∨ q = 6 ∨ q = 7) →
      s.pt_strip q = (initWave slopeConfig zeroState).pt_strip q)
    (hf0 : foldDist 20 (-1 / 2 + 5 * t) = f0) (h00 : 0 < f0) (h01 : f0 < 27.7)
    (hf1 : foldDist 20 (1 / 2 + 5 * t) = f1) (h10 : 0 < f1) (h11 : f1 < 27.7) :
    ∃ s', calcuWave slopeConfig s = Except.ok s' ∧ s'.values = s.values ∧
      (∀ q : Int, (q = 0 ∨ q = 1 ∨ q = 3 ∨ q = 4 ∨ q = 6 ∨ q = 7) →
        s'.pt_strip q = (initWave slopeConfig zeroState).pt_strip q) ∧
      quadSum slopeConfig s'.pt_strip 0 0 0
        = ((1.4 * f1 / 27.7 - 1.4 * f0 / 27.7) * (4155 / 28 / 50), 0, 1) ∧
      s'.pt_normal 0 = (normalize3 Rat.sqrt
        (s.pt_normal 0 + (1.4 * f1 / 27.7 - 1.4 * f0 / 27.7) * (4155 / 28 / 50))
        (s.pt_normal 1 + 0) (s.pt_normal 2 + 1)).1.1 ∧
      s'.pt_normal 1 = (normalize3 Rat.sqrt
        (s.pt_normal 0 + (1.4 * f1 / 27.7 - 1.4 * f0 / 27.7) * (4155 / 28 / 50))
        (s.pt_normal 1 + 0) (s.pt_normal 2 + 1)).1.2.1 ∧
      s'.pt_normal 2 = (normalize3 Rat.sqrt
        (s.pt_normal 0 + (1.4 * f1 / 27.7 - 1.4 * f0 / 27.7) * (4155 / 28 / 50))
        (s.pt_normal 1 + 0) (s.pt_normal 2 + 1)).1.2.2 := by
  obtain ⟨ps, e, h1, h2⟩ := heightStage_spec slopeConfig s.values s.pt_strip
  obtain ⟨ps', e', hc⟩ := calcuWave_eq slopeConfig s
  have eps : ps' = ps := by
    rw [e] at e'
    exact (Except.ok.inj e').symm
  rw [eps] at hc
  have i00 := (initWave_strip_spec slopeConfig zeroState).1 0 0 (by decide) (by decide)
  have i01 := (initWave_strip_spec slopeConfig zeroState).1 0 1 (by decide) (by decide)
  have i10 := (initWave_strip_spec slopeConfig zeroState).1 1 0 (by decide) (by decide)
  have a0 : (initWave slopeConfig zeroState).pt_strip 0 = -1 / 2 := by
    have h : (initWave slopeConfig zeroState).pt_strip 0 = -1 / 2 + ((0 : Nat) : ℚ) * 1 := i00.1
    rw [h]; norm_num
  have a1 : (initWave slopeConfig zeroState).pt_strip 1 = 0 := by
    have h : (initWave slopeConfig zeroState).pt_strip 1 = 0 + ((0 : Nat) : ℚ) * 1 := i00.2
    rw [h]; norm_num
  have a3 : (initWave slopeConfig zeroState).pt_strip 3 = -1 / 2 := by
    have h : (initWave slopeConfig zeroState).pt_strip 3 = -1 / 2 + ((0 : Nat) : ℚ) * 1 := i01.1
    rw [h]; norm_num
  have a4 : (initWave slopeConfig zeroState).pt_strip 4 = 1 := by
    have h : (initWave slopeConfig zeroState).pt_strip 4 = 0 + ((1 : Nat) : ℚ) * 1 := i01.2
    rw [h]; norm_num
  have a6 : (initWave slopeConfig zeroState).pt_strip 6 = 1 / 2 := by
    have h : (initWave slopeConfig zeroState).pt_strip 6 = -1 / 2 + ((1 : Nat) : ℚ) * 1 := i10.1
    rw [h]; norm_num
  have a7 : (initWave slopeConfig zeroState).pt_strip 7 = 0 := by
    have h : (initWave slopeConfig zeroState).pt_strip 7 = 0 + ((0 : Nat) : ℚ) * 1 := i10.2
    rw [h]; norm_num
  have xy : ∀ q : Int, (q = 0 ∨ q = 1 ∨ q = 3 ∨ q = 4 ∨ q = 6 ∨ q = 7) →
      ps q = (initWave slopeConfig zeroState).pt_strip q := by
    intro q hq
    rw [h2 q (fun m _ => by omega)]
    exact hp q hq
  have s0 := hp 0 (by omega)
  have s1 := hp 1 (by omega)
  have s3 := hp 3 (by omega)
  have s4 := hp 4 (by omega)
  have s6 := hp 6 (by omega)
  have s7 := hp 7 (by omega)
  rw [a0] at s0
  rw [a1] at s1
  rw [a3] at s3
  rw [a4] at s4
  rw [a6] at s6
  rw [a7] at s7
  have z0 : ps 2 = 4155 / 28 - (1.4 * f0 / 27.7 + 1.4) * (4155 / 28 / 50) := by
    have := h1 0 (by decide)
    norm_num at this
    rw [this, s0, s1, slope_waveSum s.values t _ _ f0 hv hf0 h00 h01]
    norm_num [slopeConfig]
  have z1 : ps 5 = 4155 / 28 - (1.4 * f0 / 27.7 + 1.4) * (4155 / 28 / 50) := by
    have := h1 1 (by decide)
    norm_num at this
    rw [this, s3, s4, slope_waveSum s.values t _ _ f0 hv hf0 h00 h01]
    norm_num [slopeConfig]
  have z2 : ps 8 = 4155 / 28 - (1.4 * f1 / 27.7 + 1.4) * (4155 / 28 / 50) := by
    have := h1 2 (by decide)
    norm_num at this
    rw [this, s6, s7, slope_waveSum s.values t _ _ f1 hv hf1 h10 h11]
    norm_num [slopeConfig]
  have q0 : quadSum slopeConfig ps 0 0 0
      = ((1.4 * f1 / 27.7 - 1.4 * f0 / 27.7) * (4155 / 28 / 50), 0, 1) := by
    have p0 : ps 0 = -1 / 2 := by rw [xy 0 (by omega)]; exact a0
    have p1 : ps 1 = 0 := by rw [xy 1 (by omega)]; exact a1
    have p3 : ps 3 = -1 / 2 := by rw [xy 3 (by omega)]; exact a3
    have p4 : ps 4 = 1 := by rw [xy 4 (by omega)]; exact a4
    have p6 : ps 6 = 1 / 2 := by rw [xy 6 (by omega)]; exact a6
    have p7 : ps 7 = 0 := by rw [xy 7 (by omega)]; exact a7
    unfold quadSum cross
    norm_num [slopeConfig, p0, p1, p3, p4, p6, p7, z0, z1, z2]
    ring
  refine ⟨_, hc, rfl, xy, q0, ?_⟩
  have hn := (normalStage_spec slopeConfig ps s.pt_normal s.log).1 0 0 (by decide) (by decide)
  unfold pointNormal at hn
  have eg : gridIndex slopeConfig.STRIP_LENGTH 0 0 = 0 := rfl
  rw [eg, q0] at hn
  exact hn

end TwoFrames

section TwoFrames2

theorem foldDist_twenty (x f : ℚ) (h : x * 20 = f ∨ x * 20 = -f) (h0 : 0 ≤ f) (h1 : f ≤ 200) :
    foldDist 20 x = f := by
  rw [← foldDist_id h0 h1]
  apply foldDist_eq_of_cong
  rcases h with h | h
  · exact ⟨0, Or.inl (by push_cast; linarith)⟩
  · exact ⟨0, Or.inr (by push_cast; linarith)⟩

theorem slope_normal_first : normalize3 Rat.sqrt
    (0 + (1.4 * 10 / 27.7 - 1.4 * 10 / 27.7) * (4155 / 28 / 50)) (0 + 0) (0 + 1)
      = ((0, 0, 1), 0) := by
  have hs : Rat.sqrt 1 = 1 := by
    have := Rat.sqrt_eq 1
    rw [mul_one, abs_one] at this
    exact this
  unfold normalize3 small
  norm_num [hs]

theorem slope_normal_second : normalize3 Rat.sqrt
    (0 + (1.4 * 15 / 27.7 - 1.4 * 5 / 27.7) * (4155 / 28 / 50)) (0 + 0) (1 + 1)
      = ((3 / 5, 0, 4 / 5), 0) := by
  have hs : Rat.sqrt (25 / 4) = 5 / 2 := by
    have := Rat.sqrt_eq (5 / 2)
    rw [abs_of_pos (by norm_num)] at this
    rw [← this]
    norm_num
  unfold normalize3 small
  norm_num [hs]

/-- Claim C4, the code at the failing input. Two frames on the sloped test
surface (`initWave`, `calcuWave`, `idleFunc`, `calcuWave`): the first frame
stores the normal `(0, 0, 1)` at grid point (0,0); in the second frame the sum
of the cross products of the current positions there is `(3/2, 0, 1)`, but the
stored normal is `(3/5, 0, 4/5)`, the normalisation of
`(0, 0, 1) + (3/2, 0, 1)`, which is not a multiple of `(3/2, 0, 1)`. -/
theorem calcuWave_second_frame_keeps_first_normal :
    ∃ s1 s2, calcuWave slopeConfig (initWave slopeConfig zeroState) = Except.ok s1 ∧
      (s1.pt_normal 0 = 0 ∧ s1.pt_normal 1 = 0 ∧ s1.pt_normal 2 = 1) ∧
      calcuWave slopeConfig (idleFunc s1) = Except.ok s2 ∧
      quadSum slopeConfig s2.pt_strip 0 0 0 = (3 / 2, 0, 1) ∧
      (s2.pt_normal 0 = 3 / 5 ∧ s2.pt_normal 1 = 0 ∧ s2.pt_normal 2 = 4 / 5) ∧
      ¬ ∃ c : ℚ, s2.pt_normal 0 = c * (3 / 2) ∧ s2.pt_normal 1 = c * 0 ∧
        s2.pt_normal 2 = c * 1 := by
  obtain ⟨s1, c1, v1, x1, -, n0, n1, n2⟩ :=
    slope_frame (initWave slopeConfig zeroState) 0 10 10 rfl (fun _ _ => rfl)
      (foldDist_twenty _ 10 (Or.inr (by norm_num)) (by norm_num) (by norm_num))
      (by norm_num) (by norm_num)
      (foldDist_twenty _ 10 (Or.inl (by norm_num)) (by norm_num) (by norm_num))
      (by norm_num) (by norm_num)
  have z : ∀ q, (initWave slopeConfig zeroState).pt_normal q = 0 := fun _ => rfl
  rw [z, z, z, slope_normal_first] at n0 n1 n2
  have ht : (initWave slopeConfig zeroState).values.time = 0 :=
    (initWave_values_spec slopeConfig zeroState).1
  have hv2 : (idleFunc s1).values =
      { (initWave slopeConfig zeroState).values with time := 0.05 } := by
    show ({ s1.values with time := s1.values.time + 0.05 } : Values ℚ) = _
    rw [v1, ht, zero_add]
  obtain ⟨s2, c2, -, -, q2, m0, m1, m2⟩ :=
    slope_frame (idleFunc s1) 0.05 5 15 hv2 x1
      (foldDist_twenty _ 5 (Or.inr (by norm_num)) (by norm_num) (by norm_num))
      (by norm_num) (by norm_num)
      (foldDist_twenty _ 15 (Or.inl (by norm_num)) (by norm_num) (by norm_num))
      (by norm_num) (by norm_num)
  have w0 : (idleFunc s1).pt_normal 0 = 0 := n0
  have w1 : (idleFunc s1).pt_normal 1 = 0 := n1
  have w2 : (idleFunc s1).pt_normal 2 = 1 := n2
  rw [w0, w1, w2, slope_normal_second] at m0 m1 m2
  refine ⟨s1, s2, c1, ⟨n0, n1, n2⟩, c2, ?_, ⟨m0, m1, m2⟩, ?_⟩
  · rw [q2]
    norm_num
  · rintro ⟨c, e0, -, e2⟩
    rw [m0] at e0
    rw [m2] at e2
    linarith

end TwoFrames2

/-! ## Frame ticks and the lattice -/

section FrameLemmas

variable {K : Type} [LinearOrderedField K]

/-- The function `calcuWave` keeps `values` and writes no entry of `pt_strip`
other than the `z` entries of the grid points. -/
theorem calcuWave_frame [FloorRing K] (cfg : Config K) (s s1 : State K)
    (h : calcuWave cfg s = Except.ok s1) :
    s1.values = s.values ∧
    ∀ q : Int, (∀ m : Nat, m < cfg.STRIP_COUNT * cfg.STRIP_LENGTH → q ≠ 3 * (m : Int) + 2) →
      s1.pt_strip q = s.pt_strip q := by
  obtain ⟨ps, e, -, h2⟩ := heightStage_spec cfg s.values s.pt_strip
  obtain ⟨ps', e', hc⟩ := calcuWave_eq cfg s
  have eps : ps' = ps := by
    rw [e] at e'
    exact (Except.ok.inj e').symm
  rw [eps, h] at hc
  have hs := Except.ok.inj hc
  rw [hs]
  exact ⟨rfl, h2⟩

theorem frames_succ [FloorRing K] (cfg : Config K) (n : Nat) (s s1 : State K)
    (h : frames cfg n s = Except.ok s1) :
    frames cfg (n + 1) s = calcuWave cfg (idleFunc s1) := by
  show (match frames cfg n s with
    | Except.ok s1 => frameTick cfg s1
    | Except.error e => Except.error e) = _
  rw [h]
  rfl

/-- Invariant rule for frame ticks: a property of the state that holds at the
start and is kept by `idleFunc` followed by `calcuWave` holds after any number
of ticks, and the ticks never fault. -/
theorem frames_inv [FloorRing K] (cfg : Config K) (P : State K → Prop) (s : State K) (h0 : P s)
    (hs : ∀ t t', P t → calcuWave cfg (idleFunc t) = Except.ok t' → P t') (n : Nat) :
    ∃ s', frames cfg n s = Except.ok s' ∧ P s' := by
  induction n with
  | zero => exact ⟨s, rfl, h0⟩
  | succ n ih =>
    obtain ⟨s1, e1, p1⟩ := ih
    obtain ⟨ps, -, hc⟩ := calcuWave_eq cfg (idleFunc s1)
    refine ⟨_, ?_, hs s1 _ p1 hc⟩
    rw [frames_succ cfg n s s1 e1, hc]

/-- Claim C12. After `initWave` and any number of frame ticks (`idleFunc`
followed by `calcuWave`), grid point `(i, j)`, stored at
`pt_strip[(i*STRIP_LENGTH + j)*3 ..]`, still has `x = START_X + i*LENGTH_X` and
`y = START_Y + j*LENGTH_Y`; and `calcuWave` never changes an entry of
`pt_strip` other than the `z` entries of the grid points. -/
theorem frames_keep_lattice [FloorRing K] (cfg : Config K) (s0 : State K) (n : Nat) :
    (∃ s', frames cfg n (initWave cfg s0) = Except.ok s' ∧
      ∀ i j : Nat, i < cfg.STRIP_COUNT → j < cfg.STRIP_LENGTH →
        s'.pt_strip ((((i * cfg.STRIP_LENGTH + j) * 3 : Nat) : Int))
          = cfg.START_X + (i : K) * cfg.LENGTH_X ∧
        s'.pt_strip ((((i * cfg.STRIP_LENGTH + j) * 3 + 1 : Nat) : Int))
          = cfg.START_Y + (j : K) * cfg.LENGTH_Y) ∧
    (∀ s s1 : State K, calcuWave cfg s = Except.ok s1 →
      ∀ q : Int, (∀ m : Nat, m < cfg.STRIP_COUNT * cfg.STRIP_LENGTH → q ≠ (m : Int) * 3 + 2) →
        s1.pt_strip q = s.pt_strip q) := by
  constructor
  · obtain ⟨s', e, hP⟩ := frames_inv cfg
      (fun t => ∀ i j : Nat, i < cfg.STRIP_COUNT → j < cfg.STRIP_LENGTH →
        t.pt_strip (gridIndex cfg.STRIP_LENGTH i j) = cfg.START_X + (i : K) * cfg.LENGTH_X ∧
        t.pt_strip (gridIndex cfg.STRIP_LENGTH i j + 1) = cfg.START_Y + (j : K) * cfg.LENGTH_Y)
      (initWave cfg s0) (initWave_strip_spec cfg s0).1
      (by
        intro t t' ht hc i j hi hj
        obtain ⟨-, hf⟩ := calcuWave_frame cfg (idleFunc t) t' hc
        have hm : i * cfg.STRIP_LENGTH + j < cfg.STRIP_COUNT * cfg.STRIP_LENGTH :=
          flat_index_lt hi hj
        rw [hf _ (fun m _ => by unfold gridIndex; omega),
          hf _ (fun m _ => by unfold gridIndex; omega)]
        exact ht i j hi hj)
      n
    refine ⟨s', e, fun i j hi hj => ?_⟩
    have h := hP i j hi hj
    unfold gridIndex at h
    have e0 : ((((i * cfg.STRIP_LENGTH + j) * 3 : Nat) : Int))
        = ((i * cfg.STRIP_LENGTH + j : Nat) : Int) * 3 := by push_cast; ring
    have e1 : ((((i * cfg.STRIP_LENGTH + j) * 3 + 1 : Nat) : Int))
        = ((i * cfg.STRIP_LENGTH + j : Nat) : Int) * 3 + 1 := by push_cast; ring
    rw [e0, e1]
    exact h
  · intro s s1 h q hq
    exact (calcuWave_frame cfg s s1 h).2 q (fun m hm => by
      have := hq m hm
      omega)

/-- Witness for claim C12. Grid point (1,1) of the 2×2 scenario after three
frame ticks. -/
theorem frames_keep_lattice_witness :
    (1 < scenarioConfig.STRIP_COUNT ∧ 1 < scenarioConfig.STRIP_LENGTH) ∧
    ∃ s', frames scenarioConfig 3 (initWave scenarioConfig zeroState) = Except.ok s' ∧
      s'.pt_strip 9 = scenarioConfig.START_X + ((1 : Nat) : ℚ) * scenarioConfig.LENGTH_X ∧
      s'.pt_strip 10 = scenarioConfig.START_Y + ((1 : Nat) : ℚ) * scenarioConfig.LENGTH_Y := by
  refine ⟨⟨by decide, by decide⟩, ?_⟩
  obtain ⟨⟨s', e, H⟩, -⟩ := frames_keep_lattice scenarioConfig zeroState 3
  exact ⟨s', e, H 1 1 (by decide) (by decide)⟩

end FrameLemmas

/-! ## Further claims on `normalizeF` and `gerstnerZ` -/

section MoreClaims

variable {K : Type} [LinearOrderedField K]

/-- Claim C15. When every component of the vector is exactly zero,
`normalizeF(v, v, 3)` returns the failure code 1 and leaves the memory (the
vector included) as it was; with `count ≤ 0` it returns 1 without touching the
memory either. -/
theorem normalizeF_zero_vector (sqrt : K → K) (mem : Buf K) (p : Int) :
    (mem p = 0 → mem (p + 1) = 0 → mem (p + 2) = 0 →
      normalizeF sqrt mem p p 3 = (mem, 1) ∧
      (normalizeF sqrt mem p p 3).1 p = 0 ∧ (normalizeF sqrt mem p p 3).1 (p + 1) = 0 ∧
      (normalizeF sqrt mem p p 3).1 (p + 2) = 0) ∧
    (∀ inp out count : Int, count ≤ 0 → normalizeF sqrt mem inp out count = (mem, 1)) := by
  constructor
  · intro h0 h1 h2
    have hz : small (0 : K) := ⟨by norm_num, by norm_num⟩
    have e : normalizeF sqrt mem p p 3 = (mem, 1) := by
      rw [normalizeF_three]
      unfold normalize3
      rw [if_pos (by rw [h0, h1, h2]; exact ⟨hz, hz, hz⟩)]
      simp only [set3_self]
    rw [e]
    exact ⟨rfl, h0, h1, h2⟩
  · intro inp out count hc
    unfold normalizeF
    rw [if_pos hc]

/-- Witness for claim C15. The zero vector at offset 0 of a zero memory, and
`count = 0`, over `ℚ` with `Rat.sqrt`. -/
theorem normalizeF_zero_vector_witness :
    ((fun _ => 0 : Buf ℚ) 0 = 0 ∧ (0 : Int) ≤ 0) ∧
    normalizeF Rat.sqrt (fun _ => 0 : Buf ℚ) 0 0 3 = ((fun _ => 0), 1) ∧
    normalizeF Rat.sqrt (fun _ => 0 : Buf ℚ) 0 0 0 = ((fun _ => 0), 1) :=
  ⟨⟨rfl, le_refl _⟩,
    ((normalizeF_zero_vector Rat.sqrt (fun _ => 0 : Buf ℚ) 0).1 rfl rfl rfl).1,
    (normalizeF_zero_vector Rat.sqrt (fun _ => 0 : Buf ℚ) 0).2 0 0 0 (le_refl _)⟩

/-- In exact arithmetic, for every input distance, every wavelength `> 0` and
either profile table, `gerstnerZ` reaches one of its two `return` statements
(it returns a value, neither falling off its end nor reading outside the
table): the search loop stops at an index `i ≤ 18`, so that the indices `i`,
`i+1`, `i+2`, `i+3` it reads lie within `0..21`, and the folded distance is at
least `gerstner[i]`.  Whether the two wrapping loops of the `float` code end
is not covered. -/
theorem gerstnerZ_reaches_return [FloorRing K] (L h x : K) (g : List K) (_hL : 0 < L)
    (hg : g = gerstner_pt_a ∨ g = gerstner_pt_b) :
    (∃ v, gerstnerZ L h x g = Except.ok v) ∧
    g.length = 22 ∧
    ∃ i, searchLoop g (foldDist L x) 0 = Except.ok i ∧ i + 3 ≤ 21 ∧
      (∃ gi, readTab g i = Except.ok gi ∧ gi ≤ foldDist L x) ∧
      (∃ v, interpolate g (foldDist L x) (h / 50) i = Except.ok v) := by
  have hok : TableOK g := by
    rcases hg with hg | hg
    · rw [hg]; exact tableOK_a
    · rw [hg]; exact tableOK_b
  have hx0 : g.getD (2 * 0) 0 ≤ foldDist L x := by
    rw [Nat.mul_zero, hok.first]
    exact (foldDist_range L x).1
  obtain ⟨j, e, -, hj, h3, -⟩ := searchLoop_spec hok.len (foldDist L x) 9 0 rfl (by omega) hx0
  refine ⟨gerstnerZ_total hok L h x, hok.len, 2 * j, e, by omega, ?_, ?_⟩
  · exact ⟨_, readTab_eq g (2 * j) (by rw [hok.len]; omega), h3⟩
  · exact ⟨_, interpolate_eq g hok.len _ _ _ (by omega) h3⟩

/-- An instance of `gerstnerZ_reaches_return`: table A, wavelength 0.18,
amplitude 0.008, distance -4 (a wave and a grid abscissa of the program). -/
theorem gerstnerZ_reaches_return_witness :
    (0 : ℚ) < 0.18 ∧ ∃ v, gerstnerZ (0.18 : ℚ) 0.008 (-4) gerstner_pt_a = Except.ok v :=
  ⟨by norm_num,
    (gerstnerZ_reaches_return (0.18 : ℚ) 0.008 (-4) gerstner_pt_a (by norm_num) (Or.inl rfl)).1⟩

/-- Claim C17. For either profile table and every folded distance `x` in
`[0, 200]`, the search loop of `gerstnerZ` stops at an even index `i ≤ 18`
whose segment brackets `x`: `gerstner[i] ≤ x < gerstner[i+2]`, or `i = 18` and
`gerstner[18] ≤ x ≤ gerstner[20] = 200`; and `i` is the only even index
`≤ 18` with that property. -/
theorem searchLoop_brackets (g : List K) (x : K)
    (hg : g = gerstner_pt_a ∨ g = gerstner_pt_b) (h0 : 0 ≤ x) (h200 : x ≤ 200) :
    ∃ i, searchLoop g x 0 = Except.ok i ∧ i % 2 = 0 ∧ i ≤ 18 ∧ g.getD 20 0 = 200 ∧
      ((g.getD i 0 ≤ x ∧ x < g.getD (i + 2) 0) ∨
        (i = 18 ∧ g.getD 18 0 ≤ x ∧ x ≤ g.getD 20 0)) ∧
      ∀ i' : Nat, i' % 2 = 0 → i' ≤ 18 →
        ((g.getD i' 0 ≤ x ∧ x < g.getD (i' + 2) 0) ∨
          (i' = 18 ∧ g.getD 18 0 ≤ x ∧ x ≤ g.getD 20 0)) → i' = i := by
  have hok : TableOK g := by
    rcases hg with hg | hg
    · rw [hg]; exact tableOK_a
    · rw [hg]; exact tableOK_b
  have hx0 : g.getD (2 * 0) 0 ≤ x := by
    rw [Nat.mul_zero, hok.first]
    exact h0
  obtain ⟨j, e, -, hj, h3, h4⟩ := searchLoop_spec hok.len x 9 0 rfl (by omega) hx0
  refine ⟨2 * j, e, by omega, by omega, hok.last, ?_, ?_⟩
  · rcases Nat.lt_or_ge j 9 with h5 | h5
    · exact Or.inl ⟨h3, h4 h5⟩
    · have e9 : j = 9 := by omega
      subst e9
      exact Or.inr ⟨rfl, h3, by rw [hok.last]; exact h200⟩
  · intro i' hev hle hb
    obtain ⟨k, hk⟩ : ∃ k, i' = 2 * k := ⟨i' / 2, by omega⟩
    subst hk
    have hk9 : k ≤ 9 := by omega
    have hb1 : g.getD (2 * k) 0 ≤ x := by
      rcases hb with hb | hb
      · exact hb.1
      · have e9 : k = 9 := by omega
        subst e9
        exact hb.2.1
    have hb2 : x < g.getD (2 * k + 2) 0 ∨ k = 9 := by
      rcases hb with hb | hb
      · exact Or.inl hb.2
      · exact Or.inr (by omega)
    have hs := searchLoop_seg hok x k hk9 hb1 hb2
    rw [e] at hs
    exact (Except.ok.inj hs).symm

/-- Witness for claim C17. Table B and folded distance 100, which lies in the
segment that starts at index 8. -/
theorem searchLoop_brackets_witness :
    ((0 : ℚ) ≤ 100 ∧ (100 : ℚ) ≤ 200) ∧
    ∃ i, searchLoop (gerstner_pt_b : List ℚ) 100 0 = Except.ok i ∧ i % 2 = 0 ∧ i ≤ 18 := by
  refine ⟨⟨by norm_num, by norm_num⟩, ?_⟩
  obtain ⟨i, h1, h2, h3, -⟩ :=
    searchLoop_brackets (gerstner_pt_b : List ℚ) 100 (Or.inr rfl) (by norm_num) (by norm_num)
  exact ⟨i, h1, h2, h3⟩

end MoreClaims

/-! ## The slot-to-grid-point map of the strip packer -/

section SlotLemmas

end SlotLemmas

/-! ## Claims on the slot-to-grid-point map -/

section SlotClaims

end SlotClaims

/-! ## The writes of the strip packer -/

section PackTrace

/-- Two loops whose bodies keep a relation between their states end in related
states. -/
theorem forLoop_rel {σ τ : Type} (Rl : σ → τ → Prop) (f : Nat → σ → σ) (g : Nat → τ → τ)
    (n : Nat) (s : σ) (t : τ) (h0 : Rl s t)
    (hs : ∀ i s t, Rl s t → Rl (f i s) (g i t)) : Rl (forLoop n f s) (forLoop n g t) := by
  induction n with
  | zero => exact h0
  | succ n ih => exact hs n _ _ ih

/-- The instrumented packer computes the buffers of the packer. -/
theorem packStageT_buffers {K : Type} (cfg : Config K) (ps pn vd nd : Buf K) :
    (packStageT cfg ps pn vd nd).1 = packStage cfg ps pn vd nd := by
  apply forLoop_rel (fun (s : (Buf K × Buf K) × List Int) (t : Buf K × Buf K) => s.1 = t)
  · rfl
  · intro c s t hst
    apply forLoop_rel (fun (s : (Buf K × Buf K) × List Int) (t : Buf K × Buf K) => s.1 = t)
    · exact hst
    · intro l s t hst
      unfold packBodyT packBody
      apply forLoop_rel (fun (s : (Buf K × Buf K) × List Int) (t : Buf K × Buf K) => s.1 = t)
      · exact hst
      · intro i s t hst
        show (Function.update s.1.1 _ _, Function.update s.1.2 _ _) = _
        rw [hst]

/-- The packer writes the indices `0, 1, ..., 3*(R-1)*2C - 1`, in this order,
each once. -/
theorem packStageT_trace {K : Type} (cfg : Config K) (ps pn vd nd : Buf K) :
    (packStageT cfg ps pn vd nd).2 =
      (List.range (3 * ((cfg.STRIP_COUNT - 1) * (2 * cfg.STRIP_LENGTH)))).map
        (fun n : Nat => (n : Int)) := by
  have key := forLoop_nested_inv
    (fun n (t : (Buf K × Buf K) × List Int) =>
      t.2 = (List.range (3 * n)).map (fun n : Nat => (n : Int)))
    (fun c l st => packBodyT cfg ps pn c l st) ((vd, nd), []) (cfg.STRIP_COUNT - 1)
    (2 * cfg.STRIP_LENGTH) rfl
    (by
      intro i j _ _ t ht
      have eI : ((cfg.STRIP_LENGTH : Int) * 2 * i + j)
          = ((i * (2 * cfg.STRIP_LENGTH) + j : Nat) : Int) := by push_cast; ring
      generalize i * (2 * cfg.STRIP_LENGTH) + j = m at eI ht ⊢
      show (t.2 ++ [((cfg.STRIP_LENGTH : Int) * 2 * i + j) * 3 + ((0 : Nat) : Int)]
        ++ [((cfg.STRIP_LENGTH : Int) * 2 * i + j) * 3 + ((1 : Nat) : Int)])
        ++ [((cfg.STRIP_LENGTH : Int) * 2 * i + j) * 3 + ((2 : Nat) : Int)] = _
      rw [ht, eI]
      have e3 : 3 * (m + 1) = 3 * m + 1 + 1 + 1 := by ring
      rw [e3, List.range_succ, List.range_succ, List.range_succ, List.map_append,
        List.map_append, List.map_append]
      simp only [List.map_cons, List.map_nil]
      push_cast
      have a0 : (m : Int) * 3 + 0 = 3 * (m : Int) := by ring
      have a1 : (m : Int) * 3 + 1 = 3 * (m : Int) + 1 := by ring
      have a2 : (m : Int) * 3 + 2 = 3 * (m : Int) + 2 := by ring
      rw [a0, a1, a2])
  exact key

end PackTrace

section PackClaims

theorem slot_decompose (R C : Nat) (q : Int) (h0 : 0 ≤ q)
    (h1 : q < 3 * (((R - 1) * (2 * C) : Nat) : Int)) :
    ∃ c l k : Nat, c < R - 1 ∧ l < 2 * C ∧ k < 3 ∧ q = ((C : Int) * 2 * c + l) * 3 + k := by
  obtain ⟨n, hn⟩ := Int.eq_ofNat_of_zero_le h0
  subst hn
  have h1' : n < 3 * ((R - 1) * (2 * C)) := by exact_mod_cast h1
  have hD : 0 < 2 * C := by
    rcases Nat.eq_zero_or_pos (2 * C) with h | h
    · rw [h] at h1'
      simp at h1'
    · exact h
  have hm : n / 3 < (R - 1) * (2 * C) := by omega
  have hc : n / 3 / (2 * C) < R - 1 := Nat.div_lt_of_lt_mul (by rw [Nat.mul_comm]; exact hm)
  have hl : n / 3 % (2 * C) < 2 * C := Nat.mod_lt _ hD
  have e : n / 3 = 2 * C * (n / 3 / (2 * C)) + n / 3 % (2 * C) := (Nat.div_add_mod _ _).symm
  refine ⟨n / 3 / (2 * C), n / 3 % (2 * C), n % 3, hc, hl, by omega, ?_⟩
  have e2 : ((C : Int) * 2 * ((n / 3 / (2 * C) : Nat) : Int) + ((n / 3 % (2 * C) : Nat) : Int))
      = ((n / 3 : Nat) : Int) := by
    have e' : ((n / 3 : Nat) : Int)
        = ((2 * C * (n / 3 / (2 * C)) + n / 3 % (2 * C) : Nat) : Int) := congrArg _ e
    rw [e']
    push_cast
    ring
  rw [e2]
  omega

/-- Claim C14. The packing stage writes the indices
`0, 1, ..., (R-1)*2C*3 - 1` of `vertex_data` and of `normal_data`, each exactly
once and no other index; the entries outside that range keep their contents
and the entries inside it do not depend on the prior contents of the output
buffers, so packing the same grid state from two prior contents gives the same
output, and packing a second time changes nothing. -/
theorem packStage_overwrites_all {K : Type} (cfg : Config K) (ps pn : Buf K) :
    (∀ vd nd : Buf K,
      (packStageT cfg ps pn vd nd).1 = packStage cfg ps pn vd nd ∧
      (packStageT cfg ps pn vd nd).2 =
        (List.range (3 * ((cfg.STRIP_COUNT - 1) * (2 * cfg.STRIP_LENGTH)))).map
          (fun n : Nat => (n : Int)) ∧
      (packStageT cfg ps pn vd nd).2.Nodup ∧
      ∀ q : Int, q ∈ (packStageT cfg ps pn vd nd).2 ↔
        0 ≤ q ∧ q < 3 * (((cfg.STRIP_COUNT - 1) * (2 * cfg.STRIP_LENGTH) : Nat) : Int)) ∧
    (∀ (vd nd : Buf K) (q : Int),
      (q < 0 ∨ q ≥ 3 * (((cfg.STRIP_COUNT - 1) * (2 * cfg.STRIP_LENGTH) : Nat) : Int)) →
      (packStage cfg ps pn vd nd).1 q = vd q ∧ (packStage cfg ps pn vd nd).2 q = nd q) ∧
    (∀ (vd1 nd1 vd2 nd2 : Buf K) (q : Int), 0 ≤ q →
      q < 3 * (((cfg.STRIP_COUNT - 1) * (2 * cfg.STRIP_LENGTH) : Nat) : Int) →
      (packStage cfg ps pn vd1 nd1).1 q = (packStage cfg ps pn vd2 nd2).1 q ∧
      (packStage cfg ps pn vd1 nd1).2 q = (packStage cfg ps pn vd2 nd2).2 q) ∧
    (∀ vd nd : Buf K,
      packStage cfg ps pn (packStage cfg ps pn vd nd).1 (packStage cfg ps pn vd nd).2
        = packStage cfg ps pn vd nd) := by
  have hin : ∀ (vd1 nd1 vd2 nd2 : Buf K) (q : Int), 0 ≤ q →
      q < 3 * (((cfg.STRIP_COUNT - 1) * (2 * cfg.STRIP_LENGTH) : Nat) : Int) →
      (packStage cfg ps pn vd1 nd1).1 q = (packStage cfg ps pn vd2 nd2).1 q ∧
      (packStage cfg ps pn vd1 nd1).2 q = (packStage cfg ps pn vd2 nd2).2 q := by
    intro vd1 nd1 vd2 nd2 q h0 h1
    obtain ⟨c, l, k, hc, hl, hk, e⟩ := slot_decompose _ _ q h0 h1
    have a := (packStage_spec cfg ps pn vd1 nd1).1 c l hc hl k hk
    have b := (packStage_spec cfg ps pn vd2 nd2).1 c l hc hl k hk
    rw [e, a.1, a.2, b.1, b.2]
    exact ⟨rfl, rfl⟩
  have hout := fun (vd nd : Buf K) => (packStage_spec cfg ps pn vd nd).2
  refine ⟨?_, hout, hin, ?_⟩
  · intro vd nd
    have ht := packStageT_trace cfg ps pn vd nd
    refine ⟨packStageT_buffers cfg ps pn vd nd, ht, ?_, ?_⟩
    · rw [ht]
      exact (List.nodup_range _).map (fun a b h => by exact_mod_cast h)
    · intro q
      rw [ht, List.mem_map]
      constructor
      · rintro ⟨n, hn, rfl⟩
        rw [List.mem_range] at hn
        exact ⟨by omega, by exact_mod_cast hn⟩
      · rintro ⟨h0, h1⟩
        obtain ⟨n, hn⟩ := Int.eq_ofNat_of_zero_le h0
        subst hn
        exact ⟨n, List.mem_range.mpr (by exact_mod_cast h1), rfl⟩
  · intro vd nd
    have key : ∀ q : Int,
        (packStage cfg ps pn (packStage cfg ps pn vd nd).1 (packStage cfg ps pn vd nd).2).1 q
          = (packStage cfg ps pn vd nd).1 q ∧
        (packStage cfg ps pn (packStage cfg ps pn vd nd).1 (packStage cfg ps pn vd nd).2).2 q
          = (packStage cfg ps pn vd nd).2 q := by
      intro q
      by_cases hq : 0 ≤ q ∧
          q < 3 * (((cfg.STRIP_COUNT - 1) * (2 * cfg.STRIP_LENGTH) : Nat) : Int)
      · exact hin _ _ _ _ q hq.1 hq.2
      · exact hout _ _ q (by omega)
    apply Prod.ext
    · funext q
      exact (key q).1
    · funext q
      exact (key q).2

/-- Witness for claim C14. Output entry 5 on the 2×2 scenario does not depend
on the prior contents of the output buffers. -/
theorem packStage_overwrites_all_witness :
    ((0 : Int) ≤ 5 ∧
      (5 : Int) < 3 * (((scenarioConfig.STRIP_COUNT - 1) * (2 * scenarioConfig.STRIP_LENGTH)
        : Nat) : Int)) ∧
    (packStage scenarioConfig (fun q => (q : ℚ)) (fun _ => 1) (fun _ => 0) (fun _ => 0)).1 5
      = (packStage scenarioConfig (fun q => (q : ℚ)) (fun _ => 1) (fun _ => 7) (fun _ => 9)).1 5 :=
  ⟨⟨by decide, by decide⟩,
    ((packStage_overwrites_all scenarioConfig (fun q => (q : ℚ)) (fun _ => 1)).2.2.1
      (fun _ => 0) (fun _ => 0) (fun _ => 7) (fun _ => 9) 5 (by decide) (by decide)).1⟩

end PackClaims

/-! ## The reads of the normal estimator -/

section QuadReads

variable {K : Type} [LinearOrderedField K]

end QuadReads

section QuadClaims

variable {K : Type} [LinearOrderedField K]

end QuadClaims

/-! ## Cross products on the lattice -/

section LatticeLemmas

variable {K : Type} [LinearOrderedField K]

theorem gridIndex_up (C i j : Nat) (h : 0 < i) :
    gridIndex C i j - (C : Int) * 3 = gridIndex C (i - 1) j := by
  obtain ⟨i', rfl⟩ : ∃ i', i = i' + 1 := ⟨i - 1, by omega⟩
  unfold gridIndex
  simp only [Nat.add_sub_cancel]
  push_cast
  ring

theorem gridIndex_down (C i j : Nat) :
    gridIndex C i j + (C : Int) * 3 = gridIndex C (i + 1) j := by
  unfold gridIndex
  push_cast
  ring

theorem gridIndex_left (C i j : Nat) (h : 0 < j) :
    gridIndex C i j - 3 = gridIndex C i (j - 1) := by
  obtain ⟨j', rfl⟩ : ∃ j', j = j' + 1 := ⟨j - 1, by omega⟩
  unfold gridIndex
  simp only [Nat.add_sub_cancel]
  push_cast
  ring

theorem gridIndex_right (C i j : Nat) : gridIndex C i j + 3 = gridIndex C i (j + 1) := by
  unfold gridIndex
  push_cast
  ring

end LatticeLemmas

section QuadSumLemmas

variable {K : Type} [LinearOrderedField K]

end QuadSumLemmas

section PipelineLemmas

variable {K : Type} [LinearOrderedField K]

end PipelineLemmas

section FrameSteps

variable {K : Type} [LinearOrderedField K]

end FrameSteps

section ThresholdLemmas

variable {K : Type} [LinearOrderedField K]

end ThresholdLemmas

/-! ## Frames of the whole pipeline -/

section FineLattice

end FineLattice

section FrameClaims

variable {K : Type} [LinearOrderedField K]

end FrameClaims

end GerstnerWave
